import Mathlib

/-!
Verification of the interpolation core of `phoenix4all`
(`src/phoenix4all/sources/core.py`), shallowly embedded in Lean 4.

Modelling conventions:
* Python/numpy floats are modelled as exact rationals (`ℚ`); `teff` is an
  `int` in the source but participates in the same arithmetic, so it is
  also a `ℚ` here.
* A pandas `DataFrame` with MultiIndex `(teff, logg, feh, alpha)` and a
  `filename` column is modelled as a `List PhoenixDataFile` in row order;
  the index key of a row is the 4-tuple of its parameters.
* `Index.get_level_values(...).unique()` returns the distinct values in
  order of first appearance: `uniqueFirst`.
* `np.abs(vals - x).argsort()[:2]` sorts the present values by absolute
  distance and keeps the first two.  numpy's default quicksort leaves the
  order of equal keys unspecified; the model resolves ties stably (first
  appearance first), one definite choice consistent with the source.
* `np.interp(x, xp, fp, left=0.0, right=0.0)` is modelled by `interp1`
  (piecewise linear on an increasing `xp`, `0` outside).
* astropy `Quantity` arrays are modelled as `List ℚ` (units are out of
  scope for the claims treated here); `sum` of a Python list of arrays is
  a left fold of elementwise addition starting from the first array, and
  Python's `sum([]) = 0` (a scalar) is modelled by the empty list.
* The library's `Rat.add/sub/mul/inv` are `@[irreducible]`, so the model
  computes through the `Rat.divInt`-based wrappers `qadd/qsub/qmul/qdiv`,
  which evaluate inside the kernel; the `_eq` bridge lemmas identify them
  with the ordinary field operations for symbolic reasoning.
-/

/-- `PhoenixDataFile` from `core.py`: one grid record. -/
structure PhoenixDataFile where
  teff : ℚ
  logg : ℚ
  feh : ℚ
  alpha : ℚ
  filename : String
deriving DecidableEq, Repr

/-- `WeightedPhoenixDataFile` from `core.py`: a record plus its interpolation weight. -/
structure WeightedPhoenixDataFile extends PhoenixDataFile where
  weight : ℚ
deriving DecidableEq, Repr

/-- The MultiIndex key `(teff, logg, feh, alpha)` of a record. -/
def recordKey (r : PhoenixDataFile) : ℚ × ℚ × ℚ × ℚ :=
  (r.teff, r.logg, r.feh, r.alpha)

/-- `construct_phoenix_dataframe` (core.py lines 26–32): serialises the
records and sets the `(teff, logg, feh, alpha)` MultiIndex.  pandas
`set_index` keeps every row in order — duplicate index keys are allowed and
retained, no exception is raised and nothing is dropped — so on this model
the constructed frame carries exactly the input records. -/
def construct_phoenix_dataframe (datafile_list : List PhoenixDataFile) :
    List PhoenixDataFile :=
  datafile_list

/-- Helper of `uniqueFirst`: drop the values already seen. -/
def uniqueFirstAux (seen : List ℚ) : List ℚ → List ℚ
  | [] => []
  | x :: xs =>
      if x ∈ seen then uniqueFirstAux seen xs
      else x :: uniqueFirstAux (x :: seen) xs

/-- `pandas.Index.unique`: distinct values in order of first appearance. -/
def uniqueFirst (l : List ℚ) : List ℚ :=
  uniqueFirstAux [] l

/-- Kernel-reducible rational addition. -/
def qadd (a b : ℚ) : ℚ :=
  Rat.divInt (a.num * b.den + b.num * a.den) (a.den * b.den)

/-- Kernel-reducible rational subtraction. -/
def qsub (a b : ℚ) : ℚ :=
  Rat.divInt (a.num * b.den - b.num * a.den) (a.den * b.den)

/-- Kernel-reducible rational multiplication. -/
def qmul (a b : ℚ) : ℚ :=
  Rat.divInt (a.num * b.num) (a.den * b.den)

/-- Kernel-reducible rational division (with the `x/0 = 0` convention). -/
def qdiv (a b : ℚ) : ℚ :=
  Rat.divInt (a.num * b.den) (a.den * b.num)

/-- Sum of a list of rationals, kernel-reducible. -/
def qsum (l : List ℚ) : ℚ :=
  l.foldr qadd 0

/-- Sort the present values by absolute distance to the target, stably. -/
def distSort (q : ℚ) (vals : List ℚ) : List ℚ :=
  vals.insertionSort (fun a b => |qsub a q| ≤ |qsub b q|)

/-- One axis-bracketing step of `find_nearest_points` (core.py lines 49–52
and the three analogous blocks below them): take the two present values
closest to the target, and if the target itself is among them, keep only
the target. -/
def selectClosest (vals : List ℚ) (q : ℚ) : List ℚ :=
  let top2 := (distSort q vals).take 2
  if q ∈ top2 then [q] else top2

/-- One whole filtering stage of `find_nearest_points`: compute the distinct
present values of the axis on the current frame, select the closest value(s)
to the target, and keep the rows whose axis value is among them (`isin`). -/
def filterAxis (f : PhoenixDataFile → ℚ) (q : ℚ)
    (df : List PhoenixDataFile) : List PhoenixDataFile :=
  df.filter (fun r => decide (f r ∈ selectClosest (uniqueFirst (df.map f)) q))

/-- `find_nearest_points` (core.py lines 34–72): progressively filter the
frame by the selected closest values on teff, then logg, then feh, then
alpha. -/
def find_nearest_points (df : List PhoenixDataFile)
    (teff logg feh alpha : ℚ) : List PhoenixDataFile :=
  let df_t := filterAxis (·.teff) teff df
  let df_g := filterAxis (·.logg) logg df_t
  let df_f := filterAxis (·.feh) feh df_g
  filterAxis (·.alpha) alpha df_f

/-- The four grid axes, for stating how the filtering order matters. -/
inductive Axis
  | teff
  | logg
  | feh
  | alpha
deriving DecidableEq, Repr

/-- The projection of a record onto one axis. -/
def axisProj : Axis → PhoenixDataFile → ℚ
  | .teff => (·.teff)
  | .logg => (·.logg)
  | .feh => (·.feh)
  | .alpha => (·.alpha)

/-- A query point, read per axis. -/
def queryOf (teff logg feh alpha : ℚ) : Axis → ℚ
  | .teff => teff
  | .logg => logg
  | .feh => feh
  | .alpha => alpha

/-- `find_nearest_points` generalised to an arbitrary axis-filtering order:
apply the per-axis stages left to right. -/
def findNearestPointsOrder (order : List Axis) (q : Axis → ℚ)
    (df : List PhoenixDataFile) : List PhoenixDataFile :=
  order.foldl (fun d ax => filterAxis (axisProj ax) (q ax) d) df

/-- The order hard-coded in the source. -/
def canonicalAxisOrder : List Axis :=
  [Axis.teff, Axis.logg, Axis.feh, Axis.alpha]

/-- Python `sorted` on a list of numbers. -/
def sortAsc (l : List ℚ) : List ℚ :=
  l.insertionSort (· ≤ ·)

/-- Python `min` of a non-empty list (`0` as a junk value for `[]`). -/
def minOf : List ℚ → ℚ
  | [] => 0
  | x :: xs => xs.foldl min x

/-- Python `max` of a non-empty list (`0` as a junk value for `[]`). -/
def maxOf : List ℚ → ℚ
  | [] => 0
  | x :: xs => xs.foldl max x

/-- Python `list.index`: position of the first occurrence. -/
def pyIndex (v : ℚ) (vals : List ℚ) : Nat :=
  vals.findIdx (fun x => decide (x = v))

/-- The interpolation fraction `t` of one axis (core.py lines 96–103):
`0` on a degenerate axis, else `(target - min) / (max - min)` over the
distinct present values. -/
def axisT (vals : List ℚ) (q : ℚ) : ℚ :=
  if vals.length = 1 then 0
  else qdiv (qsub q (minOf vals)) (qsub (maxOf vals) (minOf vals))

/-- The axis-local weight factor of a record value `v` (core.py
lines 114–122): `1 - t` when `v` is the least sorted value, else `t` when
the axis has more than one value, else `1`. -/
def axisFactor (vals : List ℚ) (t : ℚ) (v : ℚ) : ℚ :=
  if pyIndex v vals = 0 then qsub 1 t else if 1 < vals.length then t else 1

/-- The multilinear weight of one record: product of the four axis factors,
each computed on the sorted distinct present values of its axis. -/
def recordWeight (tv gv fv av : List ℚ) (teff logg feh alpha : ℚ)
    (r : PhoenixDataFile) : ℚ :=
  qmul (qmul (qmul (axisFactor tv (axisT tv teff) r.teff)
    (axisFactor gv (axisT gv logg) r.logg))
    (axisFactor fv (axisT fv feh) r.feh))
    (axisFactor av (axisT av alpha) r.alpha)

/-- `compute_weights` (core.py lines 75–134): attach the multilinear weight
to every row, then keep only the rows with weight strictly greater than 0. -/
def compute_weights (nearest_df : List PhoenixDataFile)
    (teff logg feh alpha : ℚ) : List WeightedPhoenixDataFile :=
  let tv := sortAsc (uniqueFirst (nearest_df.map (·.teff)))
  let gv := sortAsc (uniqueFirst (nearest_df.map (·.logg)))
  let fv := sortAsc (uniqueFirst (nearest_df.map (·.feh)))
  let av := sortAsc (uniqueFirst (nearest_df.map (·.alpha)))
  let weighted := nearest_df.map (fun r =>
    { toPhoenixDataFile := r,
      weight := recordWeight tv gv fv av teff logg feh alpha r })
  weighted.filter (fun wr => decide (0 < wr.weight))

/-- The squared Euclidean distance of core.py lines 149–154.  The source
takes `np.sqrt` of this; minimising the square root is the same as
minimising the square (the square root is strictly monotone on `[0, ∞)`),
so the model keeps the square, which stays rational. -/
def sqDist (teff logg feh alpha : ℚ) (r : PhoenixDataFile) : ℚ :=
  qadd (qadd (qadd (qmul (qsub r.teff teff) (qsub r.teff teff))
    (qmul (qsub r.logg logg) (qsub r.logg logg)))
    (qmul (qsub r.feh feh) (qsub r.feh feh)))
    (qmul (qsub r.alpha alpha) (qsub r.alpha alpha))

/-- `Series.idxmin`: the position of the first occurrence of the minimum. -/
def idxmin (l : List ℚ) : Nat :=
  l.findIdx (fun x => decide (x = minOf l))

/-- `find_nearest_datafile` (core.py lines 136–160): the row at the first
position of minimal (squared) Euclidean distance to the query, `none` on an
empty frame (where `idxmin` raises).  The model gives the frame both its
parameter columns and its index, as the function's body requires. -/
def find_nearest_datafile (df : List PhoenixDataFile)
    (teff logg feh alpha : ℚ) : Option PhoenixDataFile :=
  df[idxmin (df.map (sqDist teff logg feh alpha))]?

/-- `flux * data.weight` for one loaded flux array. -/
def scaleFlux (w : ℚ) (flux : List ℚ) : List ℚ :=
  flux.map (fun y => qmul y w)

/-- Elementwise sum of two amplitude arrays. -/
def addLists (a b : List ℚ) : List ℚ :=
  List.zipWith qadd a b

/-- Python `sum` of a list of equal-length numpy arrays (`0 + first` is the
first array; `sum([])` is the scalar `0`, modelled by `[]`). -/
def sumLists : List (List ℚ) → List ℚ
  | [] => []
  | f :: fs => fs.foldl addLists f

/-- `np.interp x xp fp` with `left=0.0, right=0.0`: piecewise-linear
interpolation on an increasing `xp`, `0` outside its range. -/
def interp1 (x : ℚ) : List ℚ → List ℚ → ℚ
  | x0 :: x1 :: xs, y0 :: y1 :: ys =>
      if x < x0 then 0
      else if x ≤ x1 then qadd y0 (qdiv (qmul (qsub y1 y0) (qsub x x0)) (qsub x1 x0))
      else interp1 x (x1 :: xs) (y1 :: ys)
  | [x0], [y0] => if x = x0 then y0 else 0
  | _, _ => 0

/-- Python `min` on naturals (`0` as a junk value for `[]`). -/
def minNat : List Nat → Nat
  | [] => 0
  | x :: xs => xs.foldl min x

/-- `np.argmin([len(w) for w in wls])`: first position of minimal length. -/
def argminLen (ls : List (List ℚ)) : Nat :=
  (ls.map List.length).findIdx (fun n => decide (n = minNat (ls.map List.length)))

/-- The loop of core.py lines 187–193 finds no mismatch exactly when every
later sampling axis equals the first (`np.array_equal`). -/
def allSameAxis : List (List ℚ) → Bool
  | [] => true
  | wl0 :: rest => rest.all (fun wl => decide (wl = wl0))

/-- The loaded sampling axes, one `file_loader` call per weighted record. -/
def loadedAxes (wd : List WeightedPhoenixDataFile)
    (loader : PhoenixDataFile → List ℚ × List ℚ) : List (List ℚ) :=
  wd.map (fun d => (loader d.toPhoenixDataFile).1)

/-- The loaded amplitude arrays, each already scaled by its record's weight. -/
def loadedFluxes (wd : List WeightedPhoenixDataFile)
    (loader : PhoenixDataFile → List ℚ × List ℚ) : List (List ℚ) :=
  wd.map (fun d => scaleFlux d.weight (loader d.toPhoenixDataFile).2)

/-- Resample every flux array onto the common grid by linear interpolation. -/
def resampleAll (grid : List ℚ) (wls fluxes : List (List ℚ)) : List (List ℚ) :=
  List.zipWith (fun wl fl => grid.map (fun x => interp1 x wl fl)) wls fluxes

/-- The resampled, weight-scaled contribution of one record to the summed
spectrum on a given common grid. -/
def recordContribution (grid : List ℚ)
    (loader : PhoenixDataFile → List ℚ × List ℚ)
    (d : WeightedPhoenixDataFile) : List ℚ :=
  grid.map (fun x =>
    interp1 x (loader d.toPhoenixDataFile).1
      (scaleFlux d.weight (loader d.toPhoenixDataFile).2))

/-- A concrete loader for exercising `compute_weighted_flux` on mismatched
sampling axes: a wide two-sample spectrum and a narrow three-sample one. -/
def mismatchLoader : PhoenixDataFile → List ℚ × List ℚ :=
  fun d => if d.filename = "wide" then ([0, 10], [1, 1]) else ([1, 2, 3], [1, 1, 1])

/-- Two unit-weight records for the mismatched-axes scenario. -/
def mismatchRecords : List WeightedPhoenixDataFile :=
  [⟨⟨0, 0, 0, 0, "wide"⟩, 1⟩, ⟨⟨0, 0, 0, 0, "narrow"⟩, 1⟩]

/-- `compute_weighted_flux` (core.py lines 162–205).  With an explicit
`wavelength_grid`, resample everything onto it and sum.  Without one, if all
loaded axes agree, sum directly on the first axis (`none` — an `IndexError`
on `wls[0]` — when the record list is empty); otherwise resample everything
onto the loaded axis with the fewest samples and sum. -/
def compute_weighted_flux (wd : List WeightedPhoenixDataFile)
    (loader : PhoenixDataFile → List ℚ × List ℚ)
    (wavelength_grid : Option (List ℚ)) : Option (List ℚ × List ℚ) :=
  let wls := loadedAxes wd loader
  let fluxes := loadedFluxes wd loader
  match wavelength_grid with
  | some grid => some (grid, sumLists (resampleAll grid wls fluxes))
  | none =>
      if hw : wls = [] then none
      else if allSameAxis wls then some (wls.head hw, sumLists fluxes)
      else
        let grid := wls.getD (argminLen wls) []
        some (grid, sumLists (resampleAll grid wls fluxes))

/-- `x` lies strictly outside the sampled domain of an increasing axis:
below every sample or above every sample. -/
def outsideDomain (x : ℚ) (xp : List ℚ) : Prop :=
  (∀ p ∈ xp, x < p) ∨ (∀ p ∈ xp, p < x)

/-- The frame whose records enumerate the full Cartesian product of four
axis-value lists, in nested (row-major) order, with an arbitrary filename
assignment. -/
def productGrid (T G F A : List ℚ) (fn : ℚ → ℚ → ℚ → ℚ → String) :
    List PhoenixDataFile :=
  T.flatMap fun t => G.flatMap fun g => F.flatMap fun f => A.map fun a =>
    ⟨t, g, f, a, fn t g f a⟩

/-- The innermost slab of a product grid: all alpha values at fixed
`(t, g, f)`. -/
def innerA (A : List ℚ) (fn : ℚ → ℚ → ℚ → ℚ → String) (t g f : ℚ) :
    List PhoenixDataFile :=
  A.map fun a => ⟨t, g, f, a, fn t g f a⟩

/-- The (feh, alpha) slab of a product grid at fixed `(t, g)`. -/
def innerFA (F A : List ℚ) (fn : ℚ → ℚ → ℚ → ℚ → String) (t g : ℚ) :
    List PhoenixDataFile :=
  F.flatMap fun f => innerA A fn t g f

/-- The (logg, feh, alpha) slab of a product grid at fixed `t`. -/
def innerGFA (G F A : List ℚ) (fn : ℚ → ℚ → ℚ → ℚ → String) (t : ℚ) :
    List PhoenixDataFile :=
  G.flatMap fun g => innerFA F A fn t g

/-- The four axis-value lists of a product grid. -/
structure GridLists where
  T : List ℚ
  G : List ℚ
  F : List ℚ
  A : List ℚ

/-- The list of one axis. -/
def GridLists.axis (L : GridLists) : Axis → List ℚ
  | .teff => L.T
  | .logg => L.G
  | .feh => L.F
  | .alpha => L.A

/-- The product grid of a `GridLists`. -/
def GridLists.grid (L : GridLists) (fn : ℚ → ℚ → ℚ → ℚ → String) :
    List PhoenixDataFile :=
  productGrid L.T L.G L.F L.A fn

/-- Restrict one axis list to the values selected by its bracketing step. -/
def restrictAxis (q : Axis → ℚ) (L : GridLists) : Axis → GridLists
  | .teff => { L with T := L.T.filter (fun v => decide (v ∈ selectClosest L.T (q .teff))) }
  | .logg => { L with G := L.G.filter (fun v => decide (v ∈ selectClosest L.G (q .logg))) }
  | .feh => { L with F := L.F.filter (fun v => decide (v ∈ selectClosest L.F (q .feh))) }
  | .alpha => { L with A := L.A.filter (fun v => decide (v ∈ selectClosest L.A (q .alpha))) }

/-- Every axis list non-empty and duplicate-free. -/
def GridLists.ok (L : GridLists) : Prop :=
  L.T ≠ [] ∧ L.G ≠ [] ∧ L.F ≠ [] ∧ L.A ≠ [] ∧
    L.T.Nodup ∧ L.G.Nodup ∧ L.F.Nodup ∧ L.A.Nodup

/-- A two-record "diagonal" grid: both corners of a 2⁴ cube, nothing else. -/
def diagGrid : List PhoenixDataFile :=
  [⟨0, 0, 0, 0, "a"⟩, ⟨2, 2, 2, 2, "b"⟩]

/-- The candidate set of the diagonal grid at the centre query. -/
def diagCand : List PhoenixDataFile :=
  find_nearest_points diagGrid 1 1 1 1

/-- A full product grid with unevenly spaced teff values `0, 1, 10`. -/
def skewGrid : List PhoenixDataFile :=
  productGrid [0, 1, 10] [0, 2] [0, 2] [0, 2] (fun _ _ _ _ => "f")

/-- The candidate set of the skew grid at the query `(5, 1, 1, 1)`: the two
teff values closest to `5` are `{1, 0}`, which do not bracket `5`. -/
def skewCand : List PhoenixDataFile :=
  find_nearest_points skewGrid 5 1 1 1

theorem num_eq_mul_den (a : ℚ) : (a.num : ℚ) = a * a.den := by
  have had : (a.den : ℚ) ≠ 0 := by exact_mod_cast a.den_nz
  have ha := Rat.num_div_den a
  rwa [div_eq_iff had] at ha

theorem qadd_eq_add (a b : ℚ) : qadd a b = a + b := by
  have had : (a.den : ℚ) ≠ 0 := by exact_mod_cast a.den_nz
  have hbd : (b.den : ℚ) ≠ 0 := by exact_mod_cast b.den_nz
  rw [qadd, Rat.divInt_eq_div]
  push_cast
  rw [div_eq_iff (mul_ne_zero had hbd), num_eq_mul_den a, num_eq_mul_den b]
  ring

theorem qsub_eq_sub (a b : ℚ) : qsub a b = a - b := by
  have had : (a.den : ℚ) ≠ 0 := by exact_mod_cast a.den_nz
  have hbd : (b.den : ℚ) ≠ 0 := by exact_mod_cast b.den_nz
  rw [qsub, Rat.divInt_eq_div]
  push_cast
  rw [div_eq_iff (mul_ne_zero had hbd), num_eq_mul_den a, num_eq_mul_den b]
  ring

theorem qmul_eq_mul (a b : ℚ) : qmul a b = a * b := by
  have had : (a.den : ℚ) ≠ 0 := by exact_mod_cast a.den_nz
  have hbd : (b.den : ℚ) ≠ 0 := by exact_mod_cast b.den_nz
  rw [qmul, Rat.divInt_eq_div]
  push_cast
  rw [div_eq_iff (mul_ne_zero had hbd), num_eq_mul_den a, num_eq_mul_den b]
  ring

theorem qdiv_eq_div (a b : ℚ) : qdiv a b = a / b := by
  have had : (a.den : ℚ) ≠ 0 := by exact_mod_cast a.den_nz
  rw [qdiv, Rat.divInt_eq_div]
  push_cast
  rcases eq_or_ne b 0 with hb | hb
  · subst hb
    simp
  · have hbn : (b.num : ℚ) ≠ 0 := by exact_mod_cast Rat.num_ne_zero.mpr hb
    rw [div_eq_div_iff (mul_ne_zero had hbn) hb, num_eq_mul_den a, num_eq_mul_den b]
    ring

theorem qsum_eq_sum (l : List ℚ) : qsum l = l.sum := by
  induction l with
  | nil => rfl
  | cons x xs ih => rw [qsum, List.foldr_cons, qadd_eq_add, List.sum_cons, ← ih]; rfl

theorem mem_uniqueFirstAux (l : List ℚ) : ∀ (seen : List ℚ) (y : ℚ),
    y ∈ uniqueFirstAux seen l ↔ y ∈ l ∧ y ∉ seen := by
  induction l with
  | nil => intro seen y; simp [uniqueFirstAux]
  | cons x xs ih =>
    intro seen y
    by_cases hx : x ∈ seen
    · rw [uniqueFirstAux, if_pos hx, ih]
      simp only [List.mem_cons]
      constructor
      · rintro ⟨hy, hs⟩
        exact ⟨Or.inr hy, hs⟩
      · rintro ⟨hy | hy, hs⟩
        · subst hy
          exact absurd hx hs
        · exact ⟨hy, hs⟩
    · rw [uniqueFirstAux, if_neg hx]
      simp only [List.mem_cons, ih]
      constructor
      · rintro (rfl | ⟨hy, hs⟩)
        · exact ⟨Or.inl rfl, hx⟩
        · exact ⟨Or.inr hy, fun hc => hs (Or.inr hc)⟩
      · rintro ⟨rfl | hy, hs⟩
        · exact Or.inl rfl
        · by_cases hyx : y = x
          · exact Or.inl hyx
          · exact Or.inr ⟨hy, fun hc => hc.elim hyx hs⟩

theorem mem_uniqueFirst {l : List ℚ} {y : ℚ} : y ∈ uniqueFirst l ↔ y ∈ l := by
  rw [uniqueFirst, mem_uniqueFirstAux]
  simp

theorem nodup_uniqueFirstAux (l : List ℚ) : ∀ seen, (uniqueFirstAux seen l).Nodup := by
  induction l with
  | nil => intro seen; simp [uniqueFirstAux]
  | cons x xs ih =>
    intro seen
    by_cases hx : x ∈ seen
    · rw [uniqueFirstAux, if_pos hx]
      exact ih seen
    · rw [uniqueFirstAux, if_neg hx]
      refine List.nodup_cons.2 ⟨fun hc => ?_, ih _⟩
      exact ((mem_uniqueFirstAux xs _ x).1 hc).2 (List.mem_cons_self x seen)

theorem nodup_uniqueFirst (l : List ℚ) : (uniqueFirst l).Nodup :=
  nodup_uniqueFirstAux l []

theorem uniqueFirstAux_of_nodup (l : List ℚ) : ∀ seen, l.Nodup →
    (∀ y ∈ l, y ∉ seen) → uniqueFirstAux seen l = l := by
  induction l with
  | nil => intro _ _ _; rfl
  | cons x xs ih =>
    intro seen hnd h
    rw [uniqueFirstAux, if_neg (h x (List.mem_cons_self _ _))]
    congr 1
    refine ih _ (List.nodup_cons.1 hnd).2 (fun y hy hc => ?_)
    rcases List.mem_cons.1 hc with rfl | hc
    · exact (List.nodup_cons.1 hnd).1 hy
    · exact h y (List.mem_cons_of_mem _ hy) hc

theorem uniqueFirst_of_nodup {l : List ℚ} (h : l.Nodup) : uniqueFirst l = l :=
  uniqueFirstAux_of_nodup l [] h (by simp)

theorem uniqueFirst_ne_nil {l : List ℚ} (h : l ≠ []) : uniqueFirst l ≠ [] := by
  cases l with
  | nil => exact absurd rfl h
  | cons x xs =>
    rw [uniqueFirst, uniqueFirstAux, if_neg (List.not_mem_nil x)]
    exact List.cons_ne_nil _ _

theorem uniqueFirstAux_append_seen (l₁ : List ℚ) : ∀ (seen l₂ : List ℚ),
    (∀ y ∈ l₁, y ∈ seen) →
    uniqueFirstAux seen (l₁ ++ l₂) = uniqueFirstAux seen l₂ := by
  induction l₁ with
  | nil => intro seen l₂ _; rfl
  | cons x xs ih =>
    intro seen l₂ h
    rw [List.cons_append, uniqueFirstAux, if_pos (h x (List.mem_cons_self _ _))]
    exact ih seen l₂ (fun y hy => h y (List.mem_cons_of_mem _ hy))

theorem uniqueFirstAux_append_absorb (l₁ : List ℚ) : ∀ (seen l₂ : List ℚ),
    (∀ y ∈ l₂, y ∈ l₁ ∨ y ∈ seen) →
    uniqueFirstAux seen (l₁ ++ l₂) = uniqueFirstAux seen l₁ := by
  induction l₁ with
  | nil =>
    intro seen l₂ h
    have hall : ∀ y ∈ l₂, y ∈ seen := by
      intro y hy
      rcases h y hy with h1 | h2
      · exact absurd h1 (List.not_mem_nil y)
      · exact h2
    calc uniqueFirstAux seen ([] ++ l₂) = uniqueFirstAux seen (l₂ ++ []) := by
          rw [List.nil_append, List.append_nil]
      _ = uniqueFirstAux seen [] := uniqueFirstAux_append_seen l₂ seen [] hall
  | cons x xs ih =>
    intro seen l₂ h
    by_cases hx : x ∈ seen
    · rw [List.cons_append, uniqueFirstAux, if_pos hx, uniqueFirstAux, if_pos hx]
      refine ih seen l₂ (fun y hy => ?_)
      rcases h y hy with h1 | h2
      · rcases List.mem_cons.1 h1 with rfl | h1
        · exact Or.inr hx
        · exact Or.inl h1
      · exact Or.inr h2
    · rw [List.cons_append, uniqueFirstAux, if_neg hx, uniqueFirstAux, if_neg hx]
      congr 1
      refine ih _ l₂ (fun y hy => ?_)
      rcases h y hy with h1 | h2
      · rcases List.mem_cons.1 h1 with rfl | h1
        · exact Or.inr (List.mem_cons_self _ _)
        · exact Or.inl h1
      · exact Or.inr (List.mem_cons_of_mem _ h2)

theorem distSort_perm (q : ℚ) (vals : List ℚ) : List.Perm (distSort q vals) vals :=
  List.perm_insertionSort _ _

theorem mem_distSort {q : ℚ} {vals : List ℚ} {a : ℚ} :
    a ∈ distSort q vals ↔ a ∈ vals :=
  (distSort_perm q vals).mem_iff

theorem distSort_sorted (q : ℚ) (vals : List ℚ) :
    (distSort q vals).Sorted (fun a b => |qsub a q| ≤ |qsub b q|) := by
  haveI : IsTotal ℚ (fun a b => |qsub a q| ≤ |qsub b q|) := ⟨fun a b => le_total _ _⟩
  haveI : IsTrans ℚ (fun a b => |qsub a q| ≤ |qsub b q|) :=
    ⟨fun a b c h1 h2 => le_trans h1 h2⟩
  exact List.sorted_insertionSort _ _

theorem selectClosest_subset {vals : List ℚ} {q v : ℚ}
    (h : v ∈ selectClosest vals q) : v ∈ vals := by
  simp only [selectClosest] at h
  split at h
  · rw [List.mem_singleton] at h
    subst h
    rename_i hq
    exact mem_distSort.1 (List.take_subset _ _ hq)
  · exact mem_distSort.1 (List.take_subset _ _ h)

theorem selectClosest_ne_nil {vals : List ℚ} (h : vals ≠ []) (q : ℚ) :
    selectClosest vals q ≠ [] := by
  have hds : distSort q vals ≠ [] := by
    intro hc
    apply h
    have hp := distSort_perm q vals
    rw [hc] at hp
    exact hp.symm.eq_nil
  simp only [selectClosest]
  split
  · exact List.cons_ne_nil _ _
  · cases hd : distSort q vals with
    | nil => exact absurd hd hds
    | cons a l =>
      rw [List.take_succ_cons]
      exact List.cons_ne_nil _ _

theorem selectClosest_length_le (vals : List ℚ) (q : ℚ) :
    (selectClosest vals q).length ≤ 2 := by
  simp only [selectClosest]
  split
  · simp
  · rw [List.length_take]
    exact min_le_left _ _

theorem selectClosest_exact {vals : List ℚ} {q : ℚ} (hq : q ∈ vals) :
    selectClosest vals q = [q] := by
  have hmem : q ∈ distSort q vals := mem_distSort.2 hq
  have hsor := distSort_sorted q vals
  cases hd : distSort q vals with
  | nil =>
    rw [hd] at hmem
    exact absurd hmem (List.not_mem_nil _)
  | cons h0 tl =>
    rw [hd] at hmem hsor
    have hhead : h0 = q := by
      rcases List.mem_cons.1 hmem with h | htl
      · exact h.symm
      · have hle := (List.sorted_cons.1 hsor).1 q htl
        rw [qsub_eq_sub, qsub_eq_sub, sub_self, abs_zero] at hle
        have h0q : h0 - q = 0 := abs_nonpos_iff.1 hle
        linarith [h0q]
    subst hhead
    simp only [selectClosest, hd, List.take_succ_cons]
    rw [if_pos (List.mem_cons_self _ _)]

theorem mem_filterAxis {f : PhoenixDataFile → ℚ} {q : ℚ}
    {df : List PhoenixDataFile} {r : PhoenixDataFile} :
    r ∈ filterAxis f q df ↔
      r ∈ df ∧ f r ∈ selectClosest (uniqueFirst (df.map f)) q := by
  rw [filterAxis, List.mem_filter]
  simp

theorem filterAxis_sublist (f : PhoenixDataFile → ℚ) (q : ℚ)
    (df : List PhoenixDataFile) : (filterAxis f q df).Sublist df :=
  List.filter_sublist _

theorem filterAxis_ne_nil {df : List PhoenixDataFile} (h : df ≠ [])
    (f : PhoenixDataFile → ℚ) (q : ℚ) : filterAxis f q df ≠ [] := by
  have h1 : uniqueFirst (df.map f) ≠ [] := by
    refine uniqueFirst_ne_nil (fun hc => h ?_)
    simpa using hc
  obtain ⟨v, hv⟩ := List.exists_mem_of_ne_nil _ (selectClosest_ne_nil h1 q)
  obtain ⟨r, hr, hrv⟩ := List.mem_map.1 (mem_uniqueFirst.1 (selectClosest_subset hv))
  intro hc
  have hmem : r ∈ filterAxis f q df := mem_filterAxis.2 ⟨hr, hrv ▸ hv⟩
  rw [hc] at hmem
  exact List.not_mem_nil _ hmem

theorem filterAxis_exact (f : PhoenixDataFile → ℚ) {df : List PhoenixDataFile}
    {r : PhoenixDataFile} (hr : r ∈ df) :
    filterAxis f (f r) df = df.filter (fun x => decide (f x = f r)) := by
  have hmem : f r ∈ uniqueFirst (df.map f) :=
    mem_uniqueFirst.2 (List.mem_map_of_mem f hr)
  rw [filterAxis, selectClosest_exact hmem]
  refine List.filter_congr (fun x _ => ?_)
  simp

theorem filter_keys_singleton {df : List PhoenixDataFile}
    (hnd : (df.map recordKey).Nodup) {r : PhoenixDataFile} (hr : r ∈ df) :
    df.filter (fun x => decide (recordKey x = recordKey r)) = [r] := by
  induction df with
  | nil => exact absurd hr (List.not_mem_nil r)
  | cons x xs ih =>
    rw [List.map_cons, List.nodup_cons] at hnd
    by_cases hkey : recordKey x = recordKey r
    · rw [List.filter_cons_of_pos (by simpa using hkey)]
      have hxs : xs.filter (fun x => decide (recordKey x = recordKey r)) = [] := by
        rw [List.filter_eq_nil_iff]
        intro a ha hc
        rw [decide_eq_true_eq] at hc
        refine hnd.1 ?_
        rw [hkey, ← hc]
        exact List.mem_map_of_mem recordKey ha
      have hxr : x = r := by
        rcases List.mem_cons.1 hr with h | hrx
        · exact h.symm
        · exact absurd (hkey ▸ List.mem_map_of_mem recordKey hrx) hnd.1
      rw [hxs, hxr]
    · rw [List.filter_cons_of_neg (by simpa using hkey)]
      have hrx : r ∈ xs := by
        rcases List.mem_cons.1 hr with h | hrx
        · exact absurd (by rw [h]) hkey
        · exact hrx
      exact ih hnd.2 hrx

theorem compute_weights_singleton (r : PhoenixDataFile) (qt ql qf qa : ℚ) :
    compute_weights [r] qt ql qf qa = [⟨r, 1⟩] := by
  simp [compute_weights, uniqueFirst, uniqueFirstAux, sortAsc, List.insertionSort,
    List.orderedInsert, recordWeight, axisT, axisFactor, pyIndex, List.findIdx_cons,
    qsub_eq_sub, qmul_eq_mul]

/-- Claim C2: for a non-empty grid (with well-formed, duplicate-free keys)
and a query point exactly equal to the grid node `r` on all four axes, the
pipeline `find_nearest_points` then `compute_weights` returns exactly the
one weighted record `r` with weight `1`. -/
theorem claim_C2 (df : List PhoenixDataFile) (r : PhoenixDataFile)
    (hnd : (df.map recordKey).Nodup) (hr : r ∈ df) :
    compute_weights (find_nearest_points df r.teff r.logg r.feh r.alpha)
      r.teff r.logg r.feh r.alpha = [⟨r, 1⟩] := by
  have hfnp : find_nearest_points df r.teff r.logg r.feh r.alpha = [r] := by
    simp only [find_nearest_points]
    rw [filterAxis_exact (fun x => x.teff) hr]
    have hr1 : r ∈ df.filter (fun x => decide (x.teff = r.teff)) :=
      List.mem_filter.2 ⟨hr, by simp⟩
    rw [filterAxis_exact (fun x => x.logg) hr1]
    have hr2 : r ∈ (df.filter (fun x => decide (x.teff = r.teff))).filter
        (fun x => decide (x.logg = r.logg)) :=
      List.mem_filter.2 ⟨hr1, by simp⟩
    rw [filterAxis_exact (fun x => x.feh) hr2]
    have hr3 : r ∈ ((df.filter (fun x => decide (x.teff = r.teff))).filter
        (fun x => decide (x.logg = r.logg))).filter
        (fun x => decide (x.feh = r.feh)) :=
      List.mem_filter.2 ⟨hr2, by simp⟩
    rw [filterAxis_exact (fun x => x.alpha) hr3]
    rw [List.filter_filter, List.filter_filter, List.filter_filter]
    have hcongr : df.filter (fun a => decide (a.alpha = r.alpha) &&
        decide (a.feh = r.feh) && decide (a.logg = r.logg) &&
        decide (a.teff = r.teff)) =
        df.filter (fun x => decide (recordKey x = recordKey r)) := by
      refine List.filter_congr (fun x _ => ?_)
      by_cases h1 : x.teff = r.teff <;> by_cases h2 : x.logg = r.logg <;>
        by_cases h3 : x.feh = r.feh <;> by_cases h4 : x.alpha = r.alpha <;>
        simp [recordKey, Prod.ext_iff, h1, h2, h3, h4]
    rw [hcongr, filter_keys_singleton hnd hr]
  rw [hfnp, compute_weights_singleton]

/-- Witness for C2 on a concrete two-node grid, querying the second node. -/
theorem claim_C2_witness :
    compute_weights
      (find_nearest_points
        [⟨1, 2, 3, 4, "x"⟩, ⟨5, 6, 7, 8, "y"⟩] 5 6 7 8) 5 6 7 8 =
      [⟨⟨5, 6, 7, 8, "y"⟩, 1⟩] :=
  claim_C2 [⟨1, 2, 3, 4, "x"⟩, ⟨5, 6, 7, 8, "y"⟩] ⟨5, 6, 7, 8, "y"⟩
    (by decide) (by decide)

theorem foldl_min_le_init {α : Type} [LinearOrder α] (l : List α) :
    ∀ a : α, l.foldl min a ≤ a := by
  induction l with
  | nil => intro a; simp
  | cons x xs ih =>
    intro a
    rw [List.foldl_cons]
    exact le_trans (ih _) (min_le_left _ _)

theorem foldl_min_le_mem {α : Type} [LinearOrder α] (l : List α) :
    ∀ (a x : α), x ∈ l → l.foldl min a ≤ x := by
  induction l with
  | nil => intro a x hx; exact absurd hx (List.not_mem_nil x)
  | cons y ys ih =>
    intro a x hx
    rcases List.mem_cons.1 hx with rfl | hx
    · exact le_trans (foldl_min_le_init ys _) (min_le_right _ _)
    · exact ih _ x hx

theorem foldl_min_mem {α : Type} [LinearOrder α] (l : List α) :
    ∀ a : α, l.foldl min a = a ∨ l.foldl min a ∈ l := by
  induction l with
  | nil => intro a; exact Or.inl rfl
  | cons x xs ih =>
    intro a
    rw [List.foldl_cons]
    rcases ih (min a x) with h | h
    · rw [h]
      rcases le_total a x with hax | hax
      · rw [min_eq_left hax]
        exact Or.inl rfl
      · rw [min_eq_right hax]
        exact Or.inr (List.mem_cons_self _ _)
    · exact Or.inr (List.mem_cons_of_mem _ h)

theorem minOf_le {l : List ℚ} {x : ℚ} (hx : x ∈ l) : minOf l ≤ x := by
  cases l with
  | nil => exact absurd hx (List.not_mem_nil x)
  | cons y ys =>
    rcases List.mem_cons.1 hx with rfl | hx
    · exact foldl_min_le_init ys x
    · exact foldl_min_le_mem ys y x hx

theorem minOf_mem {l : List ℚ} (h : l ≠ []) : minOf l ∈ l := by
  cases l with
  | nil => exact absurd rfl h
  | cons x xs =>
    rcases foldl_min_mem xs x with h1 | h1
    · show xs.foldl min x ∈ x :: xs
      rw [h1]
      exact List.mem_cons_self _ _
    · exact List.mem_cons_of_mem _ h1

theorem minNat_le {l : List Nat} {x : Nat} (hx : x ∈ l) : minNat l ≤ x := by
  cases l with
  | nil => exact absurd hx (List.not_mem_nil x)
  | cons y ys =>
    rcases List.mem_cons.1 hx with rfl | hx
    · exact foldl_min_le_init ys x
    · exact foldl_min_le_mem ys y x hx

theorem minNat_mem {l : List Nat} (h : l ≠ []) : minNat l ∈ l := by
  cases l with
  | nil => exact absurd rfl h
  | cons x xs =>
    rcases foldl_min_mem xs x with h1 | h1
    · show xs.foldl min x ∈ x :: xs
      rw [h1]
      exact List.mem_cons_self _ _
    · exact List.mem_cons_of_mem _ h1

theorem idxmin_lt_length {l : List ℚ} (h : l ≠ []) : idxmin l < l.length :=
  List.findIdx_lt_length_of_exists ⟨minOf l, minOf_mem h, by simp⟩

theorem idxmin_getElem {l : List ℚ} (h : l ≠ []) :
    l.get ⟨idxmin l, idxmin_lt_length h⟩ = minOf l := by
  have := @List.findIdx_getElem _ (fun x => decide (x = minOf l)) l
    (idxmin_lt_length h)
  simpa [idxmin, List.get_eq_getElem] using this

theorem idxmin_first {l : List ℚ} {j : Nat} (hj : j < l.length)
    (hlt : j < idxmin l) : l.get ⟨j, hj⟩ ≠ minOf l := by
  have := @List.not_of_lt_findIdx _ (fun x => decide (x = minOf l)) l j hlt
  simpa [idxmin, List.get_eq_getElem] using this

/-- Claim C5: on a non-empty grid (with duplicate-free keys, so that the
label-based `idxmin`/`.loc` lookup is positional), `find_nearest_datafile`
returns the record of minimal raw 4-D Euclidean distance to the query, the
first such record in input order on ties.  Distances are compared by their
squares (`sqDist`); `np.sqrt` is strictly monotone on nonnegatives, so the
minimisers and their order coincide. -/
theorem claim_C5 (df : List PhoenixDataFile) (teff logg feh alpha : ℚ)
    (hne : df ≠ []) (hnd : (df.map recordKey).Nodup) :
    ∃ (i : Nat) (hi : i < df.length),
      find_nearest_datafile df teff logg feh alpha = some (df.get ⟨i, hi⟩) ∧
      (∀ r ∈ df, sqDist teff logg feh alpha (df.get ⟨i, hi⟩) ≤
        sqDist teff logg feh alpha r) ∧
      (∀ j (hj : j < df.length), j < i →
        sqDist teff logg feh alpha (df.get ⟨i, hi⟩) <
          sqDist teff logg feh alpha (df.get ⟨j, hj⟩)) := by
  have hmapne : df.map (sqDist teff logg feh alpha) ≠ [] := by
    simpa using hne
  have hi : idxmin (df.map (sqDist teff logg feh alpha)) < df.length := by
    have := idxmin_lt_length hmapne
    simpa using this
  have h1 := idxmin_getElem hmapne
  simp only [List.get_eq_getElem, List.getElem_map] at h1
  refine ⟨idxmin (df.map (sqDist teff logg feh alpha)), hi, ?_, ?_, ?_⟩
  · rw [find_nearest_datafile, List.getElem?_eq_getElem hi]
    simp [List.get_eq_getElem]
  · intro r hrr
    simp only [List.get_eq_getElem]
    rw [h1]
    exact minOf_le (List.mem_map_of_mem _ hrr)
  · intro j hj hlt
    have hjd : j < (df.map (sqDist teff logg feh alpha)).length := by simpa using hj
    have hne1 := idxmin_first hjd hlt
    have hge : minOf (df.map (sqDist teff logg feh alpha)) ≤
        (df.map (sqDist teff logg feh alpha)).get ⟨j, hjd⟩ :=
      minOf_le (List.get_mem _ _ _)
    simp only [List.get_eq_getElem, List.getElem_map] at hne1 hge
    simp only [List.get_eq_getElem]
    rw [h1]
    exact lt_of_le_of_ne hge (fun hc => hne1 hc.symm)

/-- Witness for C5 on a three-record grid with a hand-checked minimum. -/
theorem claim_C5_witness :
    ∃ (i : Nat) (hi : i < ([⟨0, 0, 0, 0, "a"⟩, ⟨2, 1, 0, 0, "b"⟩,
        ⟨9, 9, 9, 9, "c"⟩] : List PhoenixDataFile).length),
      find_nearest_datafile [⟨0, 0, 0, 0, "a"⟩, ⟨2, 1, 0, 0, "b"⟩,
        ⟨9, 9, 9, 9, "c"⟩] 2 1 0 0 =
        some (([⟨0, 0, 0, 0, "a"⟩, ⟨2, 1, 0, 0, "b"⟩,
          ⟨9, 9, 9, 9, "c"⟩] : List PhoenixDataFile).get ⟨i, hi⟩) ∧
      (∀ r ∈ ([⟨0, 0, 0, 0, "a"⟩, ⟨2, 1, 0, 0, "b"⟩,
          ⟨9, 9, 9, 9, "c"⟩] : List PhoenixDataFile),
        sqDist 2 1 0 0 (([⟨0, 0, 0, 0, "a"⟩, ⟨2, 1, 0, 0, "b"⟩,
          ⟨9, 9, 9, 9, "c"⟩] : List PhoenixDataFile).get ⟨i, hi⟩) ≤
          sqDist 2 1 0 0 r) ∧
      (∀ j (hj : j < ([⟨0, 0, 0, 0, "a"⟩, ⟨2, 1, 0, 0, "b"⟩,
          ⟨9, 9, 9, 9, "c"⟩] : List PhoenixDataFile).length), j < i →
        sqDist 2 1 0 0 (([⟨0, 0, 0, 0, "a"⟩, ⟨2, 1, 0, 0, "b"⟩,
          ⟨9, 9, 9, 9, "c"⟩] : List PhoenixDataFile).get ⟨i, hi⟩) <
          sqDist 2 1 0 0 (([⟨0, 0, 0, 0, "a"⟩, ⟨2, 1, 0, 0, "b"⟩,
            ⟨9, 9, 9, 9, "c"⟩] : List PhoenixDataFile).get ⟨j, hj⟩)) :=
  claim_C5 [⟨0, 0, 0, 0, "a"⟩, ⟨2, 1, 0, 0, "b"⟩, ⟨9, 9, 9, 9, "c"⟩] 2 1 0 0
    (by decide) (by decide)

theorem zipWith_self_eq_map {α β : Type} (f : α → α → β) (l : List α) :
    List.zipWith f l l = l.map (fun x => f x x) := by
  induction l with
  | nil => rfl
  | cons x xs ih => simp [ih]

theorem interp1_outside (x : ℚ) (xp : List ℚ) :
    ∀ fp : List ℚ, ((∀ p ∈ xp, x < p) ∨ (∀ p ∈ xp, p < x)) →
    interp1 x xp fp = 0 := by
  induction xp with
  | nil =>
    intro fp _
    cases fp <;> rfl
  | cons x0 xs ih =>
    intro fp h
    cases xs with
    | nil =>
      cases fp with
      | nil => rfl
      | cons y0 ys =>
        cases ys with
        | nil =>
          show (if x = x0 then y0 else 0) = 0
          rw [if_neg]
          intro hc
          subst hc
          rcases h with h | h
          · exact lt_irrefl x (h x (List.mem_cons_self _ _))
          · exact lt_irrefl x (h x (List.mem_cons_self _ _))
        | cons y1 ys' => rfl
    | cons x1 xs' =>
      cases fp with
      | nil => rfl
      | cons y0 ys =>
        cases ys with
        | nil => rfl
        | cons y1 ys' =>
          show (if x < x0 then 0
            else if x ≤ x1 then
              qadd y0 (qdiv (qmul (qsub y1 y0) (qsub x x0)) (qsub x1 x0))
            else interp1 x (x1 :: xs') (y1 :: ys')) = 0
          rcases h with h | h
          · rw [if_pos (h x0 (List.mem_cons_self _ _))]
          · have hx1 : x1 < x := h x1 (List.mem_cons_of_mem _ (List.mem_cons_self _ _))
            have hx0 : x0 < x := h x0 (List.mem_cons_self _ _)
            rw [if_neg (not_lt.2 hx0.le), if_neg (not_le.2 hx1)]
            exact ih (y1 :: ys') (Or.inr (fun p hp => h p (List.mem_cons_of_mem _ hp)))

theorem resampleAll_loaded (grid : List ℚ) (wd : List WeightedPhoenixDataFile)
    (loader : PhoenixDataFile → List ℚ × List ℚ) :
    resampleAll grid (loadedAxes wd loader) (loadedFluxes wd loader) =
      wd.map (recordContribution grid loader) := by
  rw [resampleAll, loadedAxes, loadedFluxes, List.zipWith_map,
    zipWith_self_eq_map]
  rfl

theorem recordContribution_outside (grid : List ℚ)
    (loader : PhoenixDataFile → List ℚ × List ℚ)
    (d : WeightedPhoenixDataFile) (i : Nat) (hi : i < grid.length)
    (hout : outsideDomain (grid.getD i 0) (loader d.toPhoenixDataFile).1) :
    (recordContribution grid loader d).getD i 0 = 0 := by
  rw [recordContribution]
  rw [List.getD_eq_getElem _ _ (by simpa using hi), List.getElem_map]
  rw [List.getD_eq_getElem _ _ hi] at hout
  exact interp1_outside _ _ _ hout

theorem argminLen_lt_length {ls : List (List ℚ)} (h : ls ≠ []) :
    argminLen ls < ls.length := by
  have hlen : (ls.map List.length) ≠ [] := by simpa using h
  have := @List.findIdx_lt_length_of_exists _
    (fun n => decide (n = minNat (ls.map List.length))) (ls.map List.length)
    ⟨minNat (ls.map List.length), minNat_mem hlen, by simp⟩
  simpa [argminLen] using this

theorem argminLen_length_le {ls : List (List ℚ)} (h : ls ≠ [])
    {wl : List ℚ} (hwl : wl ∈ ls) :
    ((ls.getD (argminLen ls) []).length ≤ wl.length) := by
  have hlen : (ls.map List.length) ≠ [] := by simpa using h
  have hidx : argminLen ls < ls.length := argminLen_lt_length h
  have hidx' : argminLen ls < (ls.map List.length).length := by simpa using hidx
  have hval : (ls.map List.length).get ⟨argminLen ls, hidx'⟩ =
      minNat (ls.map List.length) := by
    have := @List.findIdx_getElem _
      (fun n => decide (n = minNat (ls.map List.length))) (ls.map List.length)
      (by simpa [argminLen] using hidx')
    simpa [argminLen, List.get_eq_getElem] using this
  simp only [List.get_eq_getElem, List.getElem_map] at hval
  rw [List.getD_eq_getElem _ _ hidx]
  rw [hval]
  exact minNat_le (List.mem_map_of_mem _ hwl)

theorem argminLen_getD_mem {ls : List (List ℚ)} (h : ls ≠ []) :
    ls.getD (argminLen ls) [] ∈ ls := by
  rw [List.getD_eq_getElem _ _ (argminLen_lt_length h)]
  exact List.getElem_mem _

/-- Claim C8: for two records of equal weight `1/2` whose loaded spectra
have exactly identical sampling axes, `compute_weighted_flux` takes the
fast path (no resampling) and returns that axis together with the
unweighted elementwise average of the two amplitude arrays. -/
theorem claim_C8 (w1 w2 : WeightedPhoenixDataFile)
    (loader : PhoenixDataFile → List ℚ × List ℚ) (ax f1 f2 : List ℚ)
    (h1 : loader w1.toPhoenixDataFile = (ax, f1))
    (h2 : loader w2.toPhoenixDataFile = (ax, f2))
    (hw1 : w1.weight = 1 / 2) (hw2 : w2.weight = 1 / 2) :
    compute_weighted_flux [w1, w2] loader none =
      some (ax, List.zipWith (fun a b => (a + b) / 2) f1 f2) := by
  have hax : loadedAxes [w1, w2] loader = [ax, ax] := by
    simp [loadedAxes, h1, h2]
  have hfl : loadedFluxes [w1, w2] loader =
      [scaleFlux w1.weight f1, scaleFlux w2.weight f2] := by
    simp [loadedFluxes, h1, h2]
  simp only [compute_weighted_flux, hax, hfl]
  rw [dif_neg (List.cons_ne_nil _ _), if_pos (by simp [allSameAxis])]
  have hsum : sumLists [scaleFlux w1.weight f1, scaleFlux w2.weight f2] =
      List.zipWith (fun a b => (a + b) / 2) f1 f2 := by
    show addLists (scaleFlux w1.weight f1) (scaleFlux w2.weight f2) =
      List.zipWith (fun a b => (a + b) / 2) f1 f2
    rw [addLists, scaleFlux, scaleFlux, List.zipWith_map, hw1, hw2]
    have hfun : (fun a b : ℚ => qadd (qmul a (1 / 2)) (qmul b (1 / 2))) =
        fun a b : ℚ => (a + b) / 2 := by
      funext a b
      rw [qadd_eq_add, qmul_eq_mul, qmul_eq_mul]
      ring
    rw [hfun]
  rw [hsum]
  rfl

/-- Witness for C8 with concrete spectra on the axis `[0, 1]`. -/
theorem claim_C8_witness :
    compute_weighted_flux
      [⟨⟨0, 0, 0, 0, "p"⟩, 1 / 2⟩, ⟨⟨0, 0, 0, 0, "q"⟩, 1 / 2⟩]
      (fun d => if d.filename = "p" then ([0, 1], [2, 4]) else ([0, 1], [6, 8]))
      none =
      some ([0, 1], List.zipWith (fun a b => (a + b) / 2) [2, 4] [6, 8]) :=
  claim_C8 ⟨⟨0, 0, 0, 0, "p"⟩, 1 / 2⟩ ⟨⟨0, 0, 0, 0, "q"⟩, 1 / 2⟩
    (fun d => if d.filename = "p" then ([0, 1], [2, 4]) else ([0, 1], [6, 8]))
    [0, 1] [2, 4] [6, 8] rfl rfl rfl rfl

/-- Claim C6 is false as stated (counterexample): with the wide two-sample
spectrum `([0,10],[1,1])` and the narrow three-sample one `([1,2,3],[1,1,1])`,
the common grid is the wide axis `[0,10]`; its sample `10` lies strictly
outside the narrow contributing record's domain, yet the summed amplitude
there is `1`, not `0` (the wide record still contributes). -/
theorem claim_C6_counterexample :
    outsideDomain (10 : ℚ) [1, 2, 3] ∧
      mismatchLoader ⟨0, 0, 0, 0, "narrow"⟩ = ([1, 2, 3], [1, 1, 1]) ∧
      compute_weighted_flux mismatchRecords mismatchLoader none =
        some ([0, 10], [1, 1]) := by
  refine ⟨?_, rfl, by decide⟩
  right
  decide

/-- Claim C6 (amended): with no explicit target axis and differing loaded
sampling axes, `compute_weighted_flux` uses a loaded axis of minimal sample
count as the common grid and sums the per-record linearly resampled
contributions; each record's contribution is `0` at any common-axis sample
strictly outside that record's own domain (the sum is `0` only where that
holds for every record). -/
theorem claim_C6 (wd : List WeightedPhoenixDataFile)
    (loader : PhoenixDataFile → List ℚ × List ℚ)
    (hne : wd ≠ []) (hdiff : allSameAxis (loadedAxes wd loader) = false) :
    ∃ grid total,
      compute_weighted_flux wd loader none = some (grid, total) ∧
      grid ∈ loadedAxes wd loader ∧
      (∀ wl ∈ loadedAxes wd loader, grid.length ≤ wl.length) ∧
      total = sumLists (wd.map (recordContribution grid loader)) ∧
      (∀ d ∈ wd, ∀ i < grid.length,
        outsideDomain (grid.getD i 0) (loader d.toPhoenixDataFile).1 →
        (recordContribution grid loader d).getD i 0 = 0) := by
  have hwls : loadedAxes wd loader ≠ [] := by
    simpa [loadedAxes] using hne
  refine ⟨(loadedAxes wd loader).getD (argminLen (loadedAxes wd loader)) [],
    sumLists (wd.map (recordContribution
      ((loadedAxes wd loader).getD (argminLen (loadedAxes wd loader)) [])
      loader)), ?_, ?_, ?_, rfl, ?_⟩
  · simp only [compute_weighted_flux]
    rw [dif_neg hwls, if_neg (by simp [hdiff]), resampleAll_loaded]
  · exact argminLen_getD_mem hwls
  · intro wl hwl
    exact argminLen_length_le hwls hwl
  · intro d _ i hi hout
    exact recordContribution_outside _ loader d i hi hout

/-- Witness for C6 on the concrete mismatched two-record scenario. -/
theorem claim_C6_witness :
    ∃ grid total,
      compute_weighted_flux mismatchRecords mismatchLoader none =
        some (grid, total) ∧
      grid ∈ loadedAxes mismatchRecords mismatchLoader ∧
      (∀ wl ∈ loadedAxes mismatchRecords mismatchLoader,
        grid.length ≤ wl.length) ∧
      total = sumLists (mismatchRecords.map
        (recordContribution grid mismatchLoader)) ∧
      (∀ d ∈ mismatchRecords, ∀ i < grid.length,
        outsideDomain (grid.getD i 0) (mismatchLoader d.toPhoenixDataFile).1 →
        (recordContribution grid mismatchLoader d).getD i 0 = 0) :=
  claim_C6 mismatchRecords mismatchLoader (by decide) (by decide)

/-- Claim C9: every `WeightedPhoenixDataFile` in the list returned by
`compute_weights` has weight strictly greater than 0 — candidates whose
computed multilinear weight is zero or negative are silently dropped. -/
theorem claim_C9 (nearest_df : List PhoenixDataFile) (teff logg feh alpha : ℚ)
    (wr : WeightedPhoenixDataFile)
    (hwr : wr ∈ compute_weights nearest_df teff logg feh alpha) :
    0 < wr.weight := by
  simp only [compute_weights] at hwr
  simpa using (List.mem_filter.1 hwr).2

/-- Witness for C9 at a concrete grid and query. -/
theorem claim_C9_witness :
    0 < (WeightedPhoenixDataFile.mk ⟨0, 0, 0, 0, "a"⟩ 1).weight :=
  claim_C9 [⟨0, 0, 0, 0, "a"⟩] 0 0 0 0 _ (by decide)

/-- Claim C10: on the empty weighted-record list with no explicit wavelength
grid, `compute_weighted_flux` does not return a spectrum: it fails at
`wls[0]` on the empty list of loaded sampling axes (modelled by `none`). -/
theorem claim_C10 (loader : PhoenixDataFile → List ℚ × List ℚ) :
    compute_weighted_flux [] loader none = none :=
  rfl

/-- Claim C7 is false on the code (counterexample): two records sharing the
key `(0,0,0,0)` are both retained by `construct_phoenix_dataframe` — it
neither raises a `DuplicateKey` error nor keeps only the first. -/
theorem claim_C7_counterexample :
    recordKey ⟨0, 0, 0, 0, "a"⟩ = recordKey ⟨0, 0, 0, 0, "b"⟩ ∧
      construct_phoenix_dataframe [⟨0, 0, 0, 0, "a"⟩, ⟨0, 0, 0, 0, "b"⟩] =
        [⟨0, 0, 0, 0, "a"⟩, ⟨0, 0, 0, 0, "b"⟩] ∧
      construct_phoenix_dataframe [⟨0, 0, 0, 0, "a"⟩, ⟨0, 0, 0, 0, "b"⟩] ≠
        [⟨0, 0, 0, 0, "a"⟩] :=
  ⟨rfl, rfl, by decide⟩

/-- Claim C7 (amended): constructing the frame from a record sequence with
duplicate `(teff, logg, feh, alpha)` keys succeeds and retains every record,
duplicates included, in input order (no error, no deduplication). -/
theorem claim_C7 (l : List PhoenixDataFile) :
    (construct_phoenix_dataframe l).length = l.length ∧
      ∀ r : PhoenixDataFile, (construct_phoenix_dataframe l).count r = l.count r :=
  ⟨rfl, fun _ => rfl⟩

theorem length_le_card_of_nodup {α : Type} [DecidableEq α] {l : List α}
    {P : Finset α} (hnd : l.Nodup) (h : ∀ x ∈ l, x ∈ P) : l.length ≤ P.card := by
  have h1 : l.toFinset.card = l.length := by
    rw [List.card_toFinset, hnd.dedup]
  rw [← h1]
  exact Finset.card_le_card (fun x hx => h x (List.mem_toFinset.1 hx))

theorem selectClosest_toFinset_card_le (vals : List ℚ) (q : ℚ) :
    (selectClosest vals q).toFinset.card ≤ 2 :=
  le_trans (List.toFinset_card_le _) (selectClosest_length_le vals q)

/-- Claim C4 is false as stated (counterexample): on the empty grid,
`find_nearest_points` returns no record at all, not at least one. -/
theorem claim_C4_counterexample :
    ¬(1 ≤ (find_nearest_points [] 0 0 0 0).length ∧
      (find_nearest_points [] 0 0 0 0).length ≤ 16) := by
  decide

/-- Claim C4 (amended): on a *non-empty* grid with duplicate-free keys,
`find_nearest_points` returns at least 1 and at most `2^4 = 16` records. -/
theorem claim_C4 (df : List PhoenixDataFile) (teff logg feh alpha : ℚ)
    (hne : df ≠ []) (hnd : (df.map recordKey).Nodup) :
    1 ≤ (find_nearest_points df teff logg feh alpha).length ∧
      (find_nearest_points df teff logg feh alpha).length ≤ 16 := by
  simp only [find_nearest_points]
  constructor
  · have h1 := filterAxis_ne_nil hne (fun r => r.teff) teff
    have h2 := filterAxis_ne_nil h1 (fun r => r.logg) logg
    have h3 := filterAxis_ne_nil h2 (fun r => r.feh) feh
    have h4 := filterAxis_ne_nil h3 (fun r => r.alpha) alpha
    exact List.length_pos.2 h4
  · set df1 := filterAxis (fun r => r.teff) teff df with hdf1
    set df2 := filterAxis (fun r => r.logg) logg df1 with hdf2
    set df3 := filterAxis (fun r => r.feh) feh df2 with hdf3
    set df4 := filterAxis (fun r => r.alpha) alpha df3 with hdf4
    have hsub4 : df4.Sublist df3 := filterAxis_sublist _ _ _
    have hsub3 : df3.Sublist df2 := filterAxis_sublist _ _ _
    have hsub2 : df2.Sublist df1 := filterAxis_sublist _ _ _
    have hsub1 : df1.Sublist df := filterAxis_sublist _ _ _
    have hsub : df4.Sublist df := (hsub4.trans (hsub3.trans (hsub2.trans hsub1)))
    have hnd4 : (df4.map recordKey).Nodup := (hsub.map recordKey).nodup hnd
    have hkeys : ∀ k ∈ df4.map recordKey,
        k ∈ (selectClosest (uniqueFirst (df.map (fun r => r.teff))) teff).toFinset ×ˢ
          ((selectClosest (uniqueFirst (df1.map (fun r => r.logg))) logg).toFinset ×ˢ
          ((selectClosest (uniqueFirst (df2.map (fun r => r.feh))) feh).toFinset ×ˢ
          (selectClosest (uniqueFirst (df3.map (fun r => r.alpha))) alpha).toFinset)) := by
      intro k hk
      obtain ⟨r, hr4, rfl⟩ := List.mem_map.1 hk
      have hrA := mem_filterAxis.1 hr4
      have hrF := mem_filterAxis.1 hrA.1
      have hrG := mem_filterAxis.1 hrF.1
      have hrT := mem_filterAxis.1 hrG.1
      simp only [recordKey, Finset.mem_product, List.mem_toFinset]
      exact ⟨hrT.2, hrG.2, hrF.2, hrA.2⟩
    have h1 : df4.length = (df4.map recordKey).length := (List.length_map _ _).symm
    rw [h1]
    refine le_trans (length_le_card_of_nodup hnd4 hkeys) ?_
    rw [Finset.card_product, Finset.card_product, Finset.card_product]
    have t1 := selectClosest_toFinset_card_le
      (uniqueFirst (df.map (fun r => r.teff))) teff
    have t2 := selectClosest_toFinset_card_le
      (uniqueFirst (df1.map (fun r => r.logg))) logg
    have t3 := selectClosest_toFinset_card_le
      (uniqueFirst (df2.map (fun r => r.feh))) feh
    have t4 := selectClosest_toFinset_card_le
      (uniqueFirst (df3.map (fun r => r.alpha))) alpha
    calc (selectClosest (uniqueFirst (df.map (fun r => r.teff))) teff).toFinset.card *
        ((selectClosest (uniqueFirst (df1.map (fun r => r.logg))) logg).toFinset.card *
        ((selectClosest (uniqueFirst (df2.map (fun r => r.feh))) feh).toFinset.card *
        (selectClosest (uniqueFirst (df3.map (fun r => r.alpha))) alpha).toFinset.card))
        ≤ 2 * (2 * (2 * 2)) :=
          Nat.mul_le_mul t1 (Nat.mul_le_mul t2 (Nat.mul_le_mul t3 t4))
      _ = 16 := rfl

/-- Witness for the amended C4 on a concrete two-node grid. -/
theorem claim_C4_witness :
    1 ≤ (find_nearest_points [⟨0, 0, 0, 0, "a"⟩, ⟨2, 2, 2, 2, "b"⟩]
        1 1 1 1).length ∧
      (find_nearest_points [⟨0, 0, 0, 0, "a"⟩, ⟨2, 2, 2, 2, "b"⟩]
        1 1 1 1).length ≤ 16 :=
  claim_C4 [⟨0, 0, 0, 0, "a"⟩, ⟨2, 2, 2, 2, "b"⟩] 1 1 1 1
    (by decide) (by decide)

theorem flatMap_ne_nil {α β : Type} {l : List α} {h : α → List β}
    (hl : l ≠ []) (hh : ∀ x ∈ l, h x ≠ []) : l.flatMap h ≠ [] := by
  cases l with
  | nil => exact absurd rfl hl
  | cons x xs =>
    rw [List.flatMap_cons]
    intro hc
    exact hh x (List.mem_cons_self _ _) (List.append_eq_nil.1 hc).1

theorem productGrid_eq (T G F A : List ℚ) (fn : ℚ → ℚ → ℚ → ℚ → String) :
    productGrid T G F A fn = T.flatMap (innerGFA G F A fn) :=
  rfl

theorem innerA_ne_nil {A : List ℚ} (hA : A ≠ [])
    (fn : ℚ → ℚ → ℚ → ℚ → String) (t g f : ℚ) : innerA A fn t g f ≠ [] := by
  simpa [innerA] using hA

theorem innerFA_ne_nil {F A : List ℚ} (hF : F ≠ []) (hA : A ≠ [])
    (fn : ℚ → ℚ → ℚ → ℚ → String) (t g : ℚ) : innerFA F A fn t g ≠ [] :=
  flatMap_ne_nil hF (fun f _ => innerA_ne_nil hA fn t g f)

theorem innerGFA_ne_nil {G F A : List ℚ} (hG : G ≠ []) (hF : F ≠ []) (hA : A ≠ [])
    (fn : ℚ → ℚ → ℚ → ℚ → String) (t : ℚ) : innerGFA G F A fn t ≠ [] :=
  flatMap_ne_nil hG (fun g _ => innerFA_ne_nil hF hA fn t g)

theorem mem_innerA {A : List ℚ} {fn : ℚ → ℚ → ℚ → ℚ → String} {t g f : ℚ}
    {r : PhoenixDataFile} (hr : r ∈ innerA A fn t g f) :
    r.teff = t ∧ r.logg = g ∧ r.feh = f ∧ r.alpha ∈ A := by
  obtain ⟨a, ha, rfl⟩ := List.mem_map.1 hr
  exact ⟨rfl, rfl, rfl, ha⟩

theorem mem_innerFA {F A : List ℚ} {fn : ℚ → ℚ → ℚ → ℚ → String} {t g : ℚ}
    {r : PhoenixDataFile} (hr : r ∈ innerFA F A fn t g) :
    r.teff = t ∧ r.logg = g ∧ r.feh ∈ F ∧ r.alpha ∈ A := by
  obtain ⟨f, hf, hrf⟩ := List.mem_flatMap.1 hr
  obtain ⟨h1, h2, h3, h4⟩ := mem_innerA hrf
  exact ⟨h1, h2, h3 ▸ hf, h4⟩

theorem mem_innerGFA {G F A : List ℚ} {fn : ℚ → ℚ → ℚ → ℚ → String} {t : ℚ}
    {r : PhoenixDataFile} (hr : r ∈ innerGFA G F A fn t) :
    r.teff = t ∧ r.logg ∈ G ∧ r.feh ∈ F ∧ r.alpha ∈ A := by
  obtain ⟨g, hg, hrg⟩ := List.mem_flatMap.1 hr
  obtain ⟨h1, h2, h3, h4⟩ := mem_innerFA hrg
  exact ⟨h1, h2 ▸ hg, h3, h4⟩

theorem mem_productGrid {T G F A : List ℚ} {fn : ℚ → ℚ → ℚ → ℚ → String}
    {r : PhoenixDataFile} (hr : r ∈ productGrid T G F A fn) :
    r.teff ∈ T ∧ r.logg ∈ G ∧ r.feh ∈ F ∧ r.alpha ∈ A := by
  rw [productGrid_eq] at hr
  obtain ⟨t, ht, hrt⟩ := List.mem_flatMap.1 hr
  obtain ⟨h1, h2, h3, h4⟩ := mem_innerGFA hrt
  exact ⟨h1 ▸ ht, h2, h3, h4⟩

theorem innerA_mem_intro {A : List ℚ} {a : ℚ} (ha : a ∈ A)
    (fn : ℚ → ℚ → ℚ → ℚ → String) (t g f : ℚ) :
    (⟨t, g, f, a, fn t g f a⟩ : PhoenixDataFile) ∈ innerA A fn t g f :=
  List.mem_map_of_mem _ ha

theorem innerFA_mem_intro {F A : List ℚ} {f a : ℚ} (hf : f ∈ F) (ha : a ∈ A)
    (fn : ℚ → ℚ → ℚ → ℚ → String) (t g : ℚ) :
    (⟨t, g, f, a, fn t g f a⟩ : PhoenixDataFile) ∈ innerFA F A fn t g :=
  List.mem_flatMap.2 ⟨f, hf, innerA_mem_intro ha fn t g f⟩

theorem innerGFA_mem_intro {G F A : List ℚ} {g f a : ℚ} (hg : g ∈ G)
    (hf : f ∈ F) (ha : a ∈ A) (fn : ℚ → ℚ → ℚ → ℚ → String) (t : ℚ) :
    (⟨t, g, f, a, fn t g f a⟩ : PhoenixDataFile) ∈ innerGFA G F A fn t :=
  List.mem_flatMap.2 ⟨g, hg, innerFA_mem_intro hf ha fn t g⟩

theorem uniqueFirstAux_flatMap_const (B : ℚ → List ℚ) :
    ∀ (xs seen : List ℚ), xs.Nodup →
      (∀ x ∈ xs, B x ≠ []) → (∀ x ∈ xs, ∀ y ∈ B x, y = x) →
      (∀ x ∈ xs, x ∉ seen) →
      uniqueFirstAux seen (xs.flatMap B) = xs := by
  intro xs
  induction xs with
  | nil => intro seen _ _ _ _; rfl
  | cons x xs ih =>
    intro seen hnd hne hconst hseen
    rw [List.flatMap_cons]
    rcases hBx : B x with _ | ⟨b0, bs⟩
    · exact absurd hBx (hne x (List.mem_cons_self _ _))
    · have hb0 : b0 = x :=
        hconst x (List.mem_cons_self _ _) b0 (by rw [hBx]; exact List.mem_cons_self _ _)
      subst hb0
      have hbs : ∀ y ∈ bs, y ∈ b0 :: seen := by
        intro y hy
        have hyx : y = b0 :=
          hconst b0 (List.mem_cons_self _ _) y (by rw [hBx]; exact List.mem_cons_of_mem _ hy)
        rw [hyx]
        exact List.mem_cons_self _ _
      rw [List.cons_append, uniqueFirstAux, if_neg (hseen b0 (List.mem_cons_self _ _))]
      congr 1
      rw [uniqueFirstAux_append_seen bs (b0 :: seen) _ hbs]
      refine ih (b0 :: seen) (List.nodup_cons.1 hnd).2
        (fun x' hx' => hne x' (List.mem_cons_of_mem _ hx'))
        (fun x' hx' y hy => hconst x' (List.mem_cons_of_mem _ hx') y hy)
        (fun x' hx' hc => ?_)
      rcases List.mem_cons.1 hc with rfl | hc2
      · exact (List.nodup_cons.1 hnd).1 hx'
      · exact hseen x' (List.mem_cons_of_mem _ hx') hc2

theorem uniqueFirst_map_teff (T G F A : List ℚ) (fn : ℚ → ℚ → ℚ → ℚ → String)
    (hTnd : T.Nodup) (hG : G ≠ []) (hF : F ≠ []) (hA : A ≠ []) :
    uniqueFirst ((productGrid T G F A fn).map (fun r => r.teff)) = T := by
  rw [productGrid_eq, List.map_flatMap, uniqueFirst]
  refine uniqueFirstAux_flatMap_const _ T [] hTnd ?_ ?_ (by simp)
  · intro t _
    simp only [ne_eq, List.map_eq_nil_iff]
    exact innerGFA_ne_nil hG hF hA fn t
  · intro t _ y hy
    obtain ⟨r, hr, rfl⟩ := List.mem_map.1 hy
    exact (mem_innerGFA hr).1

theorem uniqueFirst_map_logg (T G F A : List ℚ) (fn : ℚ → ℚ → ℚ → ℚ → String)
    (hT : T ≠ []) (hGnd : G.Nodup) (hF : F ≠ []) (hA : A ≠ []) :
    uniqueFirst ((productGrid T G F A fn).map (fun r => r.logg)) = G := by
  cases T with
  | nil => exact absurd rfl hT
  | cons t0 ts =>
    rw [productGrid_eq, List.flatMap_cons, List.map_append, uniqueFirst]
    rw [uniqueFirstAux_append_absorb _ [] _ ?habs]
    case habs =>
      intro y hy
      left
      obtain ⟨r, hr, rfl⟩ := List.mem_map.1 hy
      obtain ⟨t, _, hrt⟩ := List.mem_flatMap.1 hr
      obtain ⟨-, hg, hf, ha⟩ := mem_innerGFA hrt
      obtain ⟨f0, hf0⟩ := List.exists_mem_of_ne_nil _ hF
      obtain ⟨a0, ha0⟩ := List.exists_mem_of_ne_nil _ hA
      refine List.mem_map.2 ⟨⟨t0, r.logg, f0, a0, fn t0 r.logg f0 a0⟩, ?_, rfl⟩
      exact innerGFA_mem_intro hg hf0 ha0 fn t0
    rw [show innerGFA G F A fn t0 = G.flatMap (innerFA F A fn t0) from rfl,
      List.map_flatMap]
    refine uniqueFirstAux_flatMap_const _ G [] hGnd ?_ ?_ (by simp)
    · intro g _
      simp only [ne_eq, List.map_eq_nil_iff]
      exact innerFA_ne_nil hF hA fn t0 g
    · intro g _ y hy
      obtain ⟨r, hr, rfl⟩ := List.mem_map.1 hy
      exact (mem_innerFA hr).2.1

theorem uniqueFirst_map_feh (T G F A : List ℚ) (fn : ℚ → ℚ → ℚ → ℚ → String)
    (hT : T ≠ []) (hG : G ≠ []) (hFnd : F.Nodup) (hA : A ≠ []) :
    uniqueFirst ((productGrid T G F A fn).map (fun r => r.feh)) = F := by
  cases T with
  | nil => exact absurd rfl hT
  | cons t0 ts =>
    cases G with
    | nil => exact absurd rfl hG
    | cons g0 gs =>
      rw [productGrid_eq, List.flatMap_cons, List.map_append,
        show innerGFA (g0 :: gs) F A fn t0 =
          innerFA F A fn t0 g0 ++ gs.flatMap (innerFA F A fn t0) from
          List.flatMap_cons _ _ _,
        List.map_append, List.append_assoc, uniqueFirst]
      rw [uniqueFirstAux_append_absorb _ [] _ ?habs]
      case habs =>
        intro y hy
        left
        have hyF : y ∈ F := by
          rcases List.mem_append.1 hy with h | h
          · obtain ⟨r, hr, rfl⟩ := List.mem_map.1 h
            obtain ⟨g, _, hrg⟩ := List.mem_flatMap.1 hr
            exact (mem_innerFA hrg).2.2.1
          · obtain ⟨r, hr, rfl⟩ := List.mem_map.1 h
            obtain ⟨t, _, hrt⟩ := List.mem_flatMap.1 hr
            exact (mem_innerGFA hrt).2.2.1
        obtain ⟨a0, ha0⟩ := List.exists_mem_of_ne_nil _ hA
        refine List.mem_map.2 ⟨⟨t0, g0, y, a0, fn t0 g0 y a0⟩, ?_, rfl⟩
        exact innerFA_mem_intro hyF ha0 fn t0 g0
      rw [show innerFA F A fn t0 g0 = F.flatMap (innerA A fn t0 g0) from rfl,
        List.map_flatMap]
      refine uniqueFirstAux_flatMap_const _ F [] hFnd ?_ ?_ (by simp)
      · intro f _
        simp only [ne_eq, List.map_eq_nil_iff]
        exact innerA_ne_nil hA fn t0 g0 f
      · intro f _ y hy
        obtain ⟨r, hr, rfl⟩ := List.mem_map.1 hy
        exact (mem_innerA hr).2.2.1

theorem uniqueFirst_map_alpha (T G F A : List ℚ) (fn : ℚ → ℚ → ℚ → ℚ → String)
    (hT : T ≠ []) (hG : G ≠ []) (hF : F ≠ []) (hAnd : A.Nodup) :
    uniqueFirst ((productGrid T G F A fn).map (fun r => r.alpha)) = A := by
  cases T with
  | nil => exact absurd rfl hT
  | cons t0 ts =>
    cases G with
    | nil => exact absurd rfl hG
    | cons g0 gs =>
      cases F with
      | nil => exact absurd rfl hF
      | cons f0 fs =>
        rw [productGrid_eq, List.flatMap_cons, List.map_append,
          show innerGFA (g0 :: gs) (f0 :: fs) A fn t0 =
            innerFA (f0 :: fs) A fn t0 g0 ++
              gs.flatMap (innerFA (f0 :: fs) A fn t0) from List.flatMap_cons _ _ _,
          List.map_append,
          show innerFA (f0 :: fs) A fn t0 g0 =
            innerA A fn t0 g0 f0 ++ fs.flatMap (innerA A fn t0 g0) from
            List.flatMap_cons _ _ _,
          List.map_append, List.append_assoc, List.append_assoc, uniqueFirst]
        rw [uniqueFirstAux_append_absorb _ [] _ ?habs]
        case habs =>
          intro y hy
          left
          have hyA : y ∈ A := by
            rcases List.mem_append.1 hy with h | h
            · obtain ⟨r, hr, rfl⟩ := List.mem_map.1 h
              obtain ⟨f, _, hrf⟩ := List.mem_flatMap.1 hr
              exact (mem_innerA hrf).2.2.2
            · rcases List.mem_append.1 h with h2 | h2
              · obtain ⟨r, hr, rfl⟩ := List.mem_map.1 h2
                obtain ⟨g, _, hrg⟩ := List.mem_flatMap.1 hr
                exact (mem_innerFA hrg).2.2.2
              · obtain ⟨r, hr, rfl⟩ := List.mem_map.1 h2
                obtain ⟨t, _, hrt⟩ := List.mem_flatMap.1 hr
                exact (mem_innerGFA hrt).2.2.2
          refine List.mem_map.2 ⟨⟨t0, g0, f0, y, fn t0 g0 f0 y⟩, ?_, rfl⟩
          exact innerA_mem_intro hyA fn t0 g0 f0
        have hAid : (innerA A fn t0 g0 f0).map (fun r => r.alpha) = A := by
          simp [innerA, List.map_map, Function.comp_def]
        rw [hAid]
        exact uniqueFirstAux_of_nodup A [] hAnd (by simp)

theorem flatMap_filter_const {α β : Type} (l : List α) (h : α → List β)
    (p : β → Bool) (q : α → Bool)
    (hcompat : ∀ x, ∀ r ∈ h x, p r = q x) :
    (l.flatMap h).filter p = (l.filter q).flatMap h := by
  induction l with
  | nil => rfl
  | cons x xs ih =>
    rw [List.flatMap_cons, List.filter_append, ih]
    by_cases hq : q x = true
    · rw [List.filter_cons_of_pos hq, List.flatMap_cons]
      congr 1
      refine List.filter_eq_self.2 (fun r hr => ?_)
      rw [hcompat x r hr, hq]
    · rw [List.filter_cons_of_neg (by simpa using hq)]
      have hz : (h x).filter p = [] :=
        List.filter_eq_nil_iff.2 (fun r hr => by
          rw [hcompat x r hr]
          simpa using hq)
      rw [hz, List.nil_append]

theorem filterAxis_productGrid_teff (T G F A : List ℚ)
    (fn : ℚ → ℚ → ℚ → ℚ → String) (q : ℚ)
    (hTnd : T.Nodup) (hG : G ≠ []) (hF : F ≠ []) (hA : A ≠ []) :
    filterAxis (fun r => r.teff) q (productGrid T G F A fn) =
      productGrid (T.filter (fun v => decide (v ∈ selectClosest T q))) G F A fn := by
  rw [filterAxis, uniqueFirst_map_teff T G F A fn hTnd hG hF hA,
    productGrid_eq, productGrid_eq]
  exact flatMap_filter_const T _ _ _ (fun t r hr => by rw [(mem_innerGFA hr).1])

theorem filterAxis_productGrid_logg (T G F A : List ℚ)
    (fn : ℚ → ℚ → ℚ → ℚ → String) (q : ℚ)
    (hT : T ≠ []) (hGnd : G.Nodup) (hF : F ≠ []) (hA : A ≠ []) :
    filterAxis (fun r => r.logg) q (productGrid T G F A fn) =
      productGrid T (G.filter (fun v => decide (v ∈ selectClosest G q))) F A fn := by
  rw [filterAxis, uniqueFirst_map_logg T G F A fn hT hGnd hF hA,
    productGrid_eq, productGrid_eq, List.filter_flatMap]
  congr 1
  funext t
  exact flatMap_filter_const G _ _ _ (fun g r hr => by rw [(mem_innerFA hr).2.1])

theorem filterAxis_productGrid_feh (T G F A : List ℚ)
    (fn : ℚ → ℚ → ℚ → ℚ → String) (q : ℚ)
    (hT : T ≠ []) (hG : G ≠ []) (hFnd : F.Nodup) (hA : A ≠ []) :
    filterAxis (fun r => r.feh) q (productGrid T G F A fn) =
      productGrid T G (F.filter (fun v => decide (v ∈ selectClosest F q))) A fn := by
  rw [filterAxis, uniqueFirst_map_feh T G F A fn hT hG hFnd hA,
    productGrid_eq, productGrid_eq, List.filter_flatMap]
  congr 1
  funext t
  show (innerGFA G F A fn t).filter _ = innerGFA G (F.filter _) A fn t
  rw [show innerGFA G F A fn t = G.flatMap (innerFA F A fn t) from rfl,
    List.filter_flatMap]
  congr 1
  funext g
  exact flatMap_filter_const F _ _ _ (fun f r hr => by rw [(mem_innerA hr).2.2.1])

theorem filterAxis_productGrid_alpha (T G F A : List ℚ)
    (fn : ℚ → ℚ → ℚ → ℚ → String) (q : ℚ)
    (hT : T ≠ []) (hG : G ≠ []) (hF : F ≠ []) (hAnd : A.Nodup) :
    filterAxis (fun r => r.alpha) q (productGrid T G F A fn) =
      productGrid T G F (A.filter (fun v => decide (v ∈ selectClosest A q))) fn := by
  rw [filterAxis, uniqueFirst_map_alpha T G F A fn hT hG hF hAnd,
    productGrid_eq, productGrid_eq, List.filter_flatMap]
  congr 1
  funext t
  show (innerGFA G F A fn t).filter _ = innerGFA G F (A.filter _) fn t
  rw [show innerGFA G F A fn t = G.flatMap (innerFA F A fn t) from rfl,
    List.filter_flatMap]
  congr 1
  funext g
  show (innerFA F A fn t g).filter _ = innerFA F (A.filter _) fn t g
  rw [show innerFA F A fn t g = F.flatMap (innerA A fn t g) from rfl,
    List.filter_flatMap]
  congr 1
  funext f
  show (innerA A fn t g f).filter _ = innerA (A.filter _) fn t g f
  rw [innerA, List.filter_map, innerA]
  congr 1

theorem filterAxis_productGrid (ax : Axis) (q : Axis → ℚ) (L : GridLists)
    (fn : ℚ → ℚ → ℚ → ℚ → String) (hok : L.ok) :
    filterAxis (axisProj ax) (q ax) (L.grid fn) = (restrictAxis q L ax).grid fn := by
  obtain ⟨hT, hG, hF, hA, hTnd, hGnd, hFnd, hAnd⟩ := hok
  cases ax
  · exact filterAxis_productGrid_teff L.T L.G L.F L.A fn (q .teff) hTnd hG hF hA
  · exact filterAxis_productGrid_logg L.T L.G L.F L.A fn (q .logg) hT hGnd hF hA
  · exact filterAxis_productGrid_feh L.T L.G L.F L.A fn (q .feh) hT hG hFnd hA
  · exact filterAxis_productGrid_alpha L.T L.G L.F L.A fn (q .alpha) hT hG hF hAnd

theorem selectClosest_filter_ne_nil {X : List ℚ} (hX : X ≠ []) (q : ℚ) :
    X.filter (fun v => decide (v ∈ selectClosest X q)) ≠ [] := by
  obtain ⟨v, hv⟩ := List.exists_mem_of_ne_nil _ (selectClosest_ne_nil hX q)
  intro hc
  have hmem : v ∈ X.filter (fun v => decide (v ∈ selectClosest X q)) :=
    List.mem_filter.2 ⟨selectClosest_subset hv, by simpa using hv⟩
  rw [hc] at hmem
  exact List.not_mem_nil _ hmem

theorem restrictAxis_ok {q : Axis → ℚ} {L : GridLists} (hok : L.ok) (ax : Axis) :
    (restrictAxis q L ax).ok := by
  obtain ⟨hT, hG, hF, hA, hTnd, hGnd, hFnd, hAnd⟩ := hok
  cases ax
  · exact ⟨selectClosest_filter_ne_nil hT _, hG, hF, hA,
      hTnd.filter _, hGnd, hFnd, hAnd⟩
  · exact ⟨hT, selectClosest_filter_ne_nil hG _, hF, hA,
      hTnd, hGnd.filter _, hFnd, hAnd⟩
  · exact ⟨hT, hG, selectClosest_filter_ne_nil hF _, hA,
      hTnd, hGnd, hFnd.filter _, hAnd⟩
  · exact ⟨hT, hG, hF, selectClosest_filter_ne_nil hA _,
      hTnd, hGnd, hFnd, hAnd.filter _⟩

theorem findNearestPointsOrder_productGrid (q : Axis → ℚ)
    (fn : ℚ → ℚ → ℚ → ℚ → String) :
    ∀ (order : List Axis) (L : GridLists), L.ok →
      findNearestPointsOrder order q (L.grid fn) =
        (order.foldl (restrictAxis q) L).grid fn ∧
        (order.foldl (restrictAxis q) L).ok := by
  intro order
  induction order with
  | nil => intro L hok; exact ⟨rfl, hok⟩
  | cons ax axs ih =>
    intro L hok
    rw [findNearestPointsOrder, List.foldl_cons, List.foldl_cons]
    rw [filterAxis_productGrid ax q L fn hok]
    exact ih (restrictAxis q L ax) (restrictAxis_ok hok ax)

theorem restrictAxis_comm (q : Axis → ℚ) (L : GridLists) (ax1 ax2 : Axis) :
    restrictAxis q (restrictAxis q L ax1) ax2 =
      restrictAxis q (restrictAxis q L ax2) ax1 := by
  cases ax1 <;> cases ax2 <;> rfl

/-- Claim C3 is false as stated (counterexample): on an irregular grid the
result of `find_nearest_points` depends on the axis filtering order.  With
records `(0,0,0,0)`, `(0,10,0,0)`, `(100,5,0,0)` and query `(0,5,0,0)`, the
teff-first order keeps the two `teff = 0` records, while filtering logg
first hits the exact match `logg = 5` and keeps only `(100,5,0,0)`. -/
theorem claim_C3_counterexample :
    find_nearest_points
        [⟨0, 0, 0, 0, "r1"⟩, ⟨0, 10, 0, 0, "r2"⟩, ⟨100, 5, 0, 0, "r3"⟩]
        0 5 0 0 =
      findNearestPointsOrder canonicalAxisOrder (queryOf 0 5 0 0)
        [⟨0, 0, 0, 0, "r1"⟩, ⟨0, 10, 0, 0, "r2"⟩, ⟨100, 5, 0, 0, "r3"⟩] ∧
    findNearestPointsOrder [Axis.logg, Axis.teff, Axis.feh, Axis.alpha]
        (queryOf 0 5 0 0)
        [⟨0, 0, 0, 0, "r1"⟩, ⟨0, 10, 0, 0, "r2"⟩, ⟨100, 5, 0, 0, "r3"⟩] ≠
      findNearestPointsOrder canonicalAxisOrder (queryOf 0 5 0 0)
        [⟨0, 0, 0, 0, "r1"⟩, ⟨0, 10, 0, 0, "r2"⟩, ⟨100, 5, 0, 0, "r3"⟩] := by
  constructor
  · rfl
  · decide

/-- Claim C3 (amended): on a grid whose records enumerate a full Cartesian
product of duplicate-free axis-value lists in nested (teff, logg, feh,
alpha) order, the record set produced is identical for every axis filtering
order: each axis's present-value set is then independent of the other
axes' filtering, and the per-axis restrictions commute. -/
theorem claim_C3 (T G F A : List ℚ) (fn : ℚ → ℚ → ℚ → ℚ → String)
    (teff logg feh alpha : ℚ) (order : List Axis)
    (hT : T ≠ []) (hG : G ≠ []) (hF : F ≠ []) (hA : A ≠ [])
    (hTnd : T.Nodup) (hGnd : G.Nodup) (hFnd : F.Nodup) (hAnd : A.Nodup)
    (hperm : List.Perm order canonicalAxisOrder) :
    findNearestPointsOrder order (queryOf teff logg feh alpha)
        (productGrid T G F A fn) =
      find_nearest_points (productGrid T G F A fn) teff logg feh alpha := by
  have hok : (GridLists.mk T G F A).ok :=
    ⟨hT, hG, hF, hA, hTnd, hGnd, hFnd, hAnd⟩
  have h1 := findNearestPointsOrder_productGrid
    (queryOf teff logg feh alpha) fn order (GridLists.mk T G F A) hok
  have h2 := findNearestPointsOrder_productGrid
    (queryOf teff logg feh alpha) fn canonicalAxisOrder (GridLists.mk T G F A) hok
  have hcanon : find_nearest_points (productGrid T G F A fn) teff logg feh alpha =
      findNearestPointsOrder canonicalAxisOrder (queryOf teff logg feh alpha)
        (productGrid T G F A fn) := rfl
  rw [hcanon]
  have hgrid : productGrid T G F A fn = (GridLists.mk T G F A).grid fn := rfl
  rw [hgrid, h1.1, h2.1]
  haveI : RightCommutative (restrictAxis (queryOf teff logg feh alpha)) :=
    ⟨fun L a1 a2 => restrictAxis_comm (queryOf teff logg feh alpha) L a1 a2⟩
  exact congrArg (fun L => GridLists.grid L fn)
    (List.Perm.foldl_eq hperm (GridLists.mk T G F A))

/-- Witness for the amended C3: a scrambled axis order on a full 2×2×2×2
product grid gives the same records as the source's fixed order. -/
theorem claim_C3_witness :
    findNearestPointsOrder [Axis.alpha, Axis.feh, Axis.logg, Axis.teff]
        (queryOf 1 1 1 1)
        (productGrid [0, 2] [0, 2] [0, 2] [0, 2] (fun _ _ _ _ => "f")) =
      find_nearest_points
        (productGrid [0, 2] [0, 2] [0, 2] [0, 2] (fun _ _ _ _ => "f")) 1 1 1 1 :=
  claim_C3 [0, 2] [0, 2] [0, 2] [0, 2] (fun _ _ _ _ => "f") 1 1 1 1
    [Axis.alpha, Axis.feh, Axis.logg, Axis.teff]
    (by decide) (by decide) (by decide) (by decide)
    (by decide) (by decide) (by decide) (by decide) (by decide)

theorem sum_filter_pos_map {α : Type} (l : List α) (w : α → ℚ)
    (h : ∀ r ∈ l, 0 ≤ w r) :
    ((l.filter (fun r => decide (0 < w r))).map w).sum = (l.map w).sum := by
  induction l with
  | nil => rfl
  | cons x xs ih =>
    have hx := h x (List.mem_cons_self _ _)
    have ih' := ih (fun y hy => h y (List.mem_cons_of_mem _ hy))
    by_cases hpos : 0 < w x
    · rw [List.filter_cons_of_pos (by simpa using hpos), List.map_cons,
        List.sum_cons, List.map_cons, List.sum_cons, ih']
    · have hx0 : w x = 0 := le_antisymm (not_lt.1 hpos) hx
      rw [List.filter_cons_of_neg (by simpa using hpos), List.map_cons,
        List.sum_cons, hx0, zero_add, ih']

theorem sum_map_flatMap {α β : Type} (l : List α) (h : α → List β) (f : β → ℚ) :
    ((l.flatMap h).map f).sum = (l.map (fun x => ((h x).map f).sum)).sum := by
  induction l with
  | nil => rfl
  | cons x xs ih =>
    rw [List.flatMap_cons, List.map_append, List.sum_append, ih,
      List.map_cons, List.sum_cons]

theorem sum_innerA (wT wG wF wA : ℚ → ℚ) (A : List ℚ)
    (fn : ℚ → ℚ → ℚ → ℚ → String) (t g f : ℚ) :
    ((innerA A fn t g f).map
      (fun r => wT r.teff * wG r.logg * wF r.feh * wA r.alpha)).sum =
      wT t * wG g * wF f * (A.map wA).sum := by
  rw [innerA, List.map_map]
  have hfun : ((fun r => wT r.teff * wG r.logg * wF r.feh * wA r.alpha) ∘
      fun a => (⟨t, g, f, a, fn t g f a⟩ : PhoenixDataFile)) =
      fun a => (wT t * wG g * wF f) * wA a := by
    funext a
    show wT t * wG g * wF f * wA a = (wT t * wG g * wF f) * wA a
    ring
  rw [hfun, List.sum_map_mul_left]

theorem sum_innerFA (wT wG wF wA : ℚ → ℚ) (F A : List ℚ)
    (fn : ℚ → ℚ → ℚ → ℚ → String) (t g : ℚ) :
    ((innerFA F A fn t g).map
      (fun r => wT r.teff * wG r.logg * wF r.feh * wA r.alpha)).sum =
      wT t * wG g * (F.map wF).sum * (A.map wA).sum := by
  rw [innerFA, sum_map_flatMap]
  have hfun : (fun f => ((innerA A fn t g f).map
      (fun r => wT r.teff * wG r.logg * wF r.feh * wA r.alpha)).sum) =
      fun f => ((fun v => wT t * wG g * wF v) f) * (A.map wA).sum := by
    funext f
    rw [sum_innerA]
  rw [hfun, List.sum_map_mul_right]
  have hfun2 : (fun v => wT t * wG g * wF v) = fun v => (wT t * wG g) * wF v := rfl
  rw [hfun2, List.sum_map_mul_left]

theorem sum_innerGFA (wT wG wF wA : ℚ → ℚ) (G F A : List ℚ)
    (fn : ℚ → ℚ → ℚ → ℚ → String) (t : ℚ) :
    ((innerGFA G F A fn t).map
      (fun r => wT r.teff * wG r.logg * wF r.feh * wA r.alpha)).sum =
      wT t * (G.map wG).sum * (F.map wF).sum * (A.map wA).sum := by
  rw [innerGFA, sum_map_flatMap]
  have hfun : (fun g => ((innerFA F A fn t g).map
      (fun r => wT r.teff * wG r.logg * wF r.feh * wA r.alpha)).sum) =
      fun g => ((fun v => wT t * wG v * (F.map wF).sum) g) * (A.map wA).sum := by
    funext g
    rw [sum_innerFA]
  rw [hfun, List.sum_map_mul_right]
  have hfun2 : (fun v => wT t * wG v * (F.map wF).sum) =
      fun v => ((fun u => wT t * wG u) v) * (F.map wF).sum := rfl
  rw [hfun2, List.sum_map_mul_right, List.sum_map_mul_left]

theorem sum_map_productGrid (wT wG wF wA : ℚ → ℚ) (T G F A : List ℚ)
    (fn : ℚ → ℚ → ℚ → ℚ → String) :
    ((productGrid T G F A fn).map
      (fun r => wT r.teff * wG r.logg * wF r.feh * wA r.alpha)).sum =
      (T.map wT).sum * (G.map wG).sum * (F.map wF).sum * (A.map wA).sum := by
  rw [productGrid_eq, sum_map_flatMap]
  have hfun : (fun t => ((innerGFA G F A fn t).map
      (fun r => wT r.teff * wG r.logg * wF r.feh * wA r.alpha)).sum) =
      fun t => ((fun v => wT v * (G.map wG).sum * (F.map wF).sum) t) *
        (A.map wA).sum := by
    funext t
    rw [sum_innerGFA]
  rw [hfun, List.sum_map_mul_right]
  have hfun2 : (fun v => wT v * (G.map wG).sum * (F.map wF).sum) =
      fun v => ((fun u => wT u * (G.map wG).sum) v) * (F.map wF).sum := rfl
  rw [hfun2, List.sum_map_mul_right, List.sum_map_mul_right]

theorem sortAsc_singleton (x : ℚ) : sortAsc [x] = [x] :=
  rfl

theorem sortAsc_pair_le {x y : ℚ} (h : x ≤ y) : sortAsc [x, y] = [x, y] := by
  simp [sortAsc, List.insertionSort, List.orderedInsert, h]

theorem sortAsc_pair_gt {x y : ℚ} (h : ¬x ≤ y) : sortAsc [x, y] = [y, x] := by
  simp [sortAsc, List.insertionSort, List.orderedInsert, h]

theorem minOf_pair (a b : ℚ) : minOf [a, b] = min a b :=
  rfl

theorem maxOf_pair (a b : ℚ) : maxOf [a, b] = max a b :=
  rfl

theorem pyIndex_head (a : ℚ) (l : List ℚ) : pyIndex a (a :: l) = 0 := by
  simp [pyIndex, List.findIdx_cons]

theorem pyIndex_pair_snd {a b : ℚ} (h : a ≠ b) : pyIndex b [a, b] = 1 := by
  simp [pyIndex, List.findIdx_cons, h]

theorem axisFactor_pair_fst (a b t : ℚ) : axisFactor [a, b] t a = qsub 1 t := by
  rw [axisFactor, if_pos (pyIndex_head a [b])]

theorem axisFactor_pair_snd {a b : ℚ} (t : ℚ) (h : a ≠ b) :
    axisFactor [a, b] t b = t := by
  rw [axisFactor, pyIndex_pair_snd h]
  norm_num

theorem axisT_pair (a b q : ℚ) (hab : a ≤ b) :
    axisT [a, b] q = (q - a) / (b - a) := by
  rw [axisT, if_neg (by norm_num), minOf_pair, maxOf_pair, min_eq_left hab,
    max_eq_right hab, qsub_eq_sub, qsub_eq_sub, qdiv_eq_div]

theorem axisT_bounds (X : List ℚ) (q : ℚ) (hnd : X.Nodup) (hne : X ≠ [])
    (hlen : X.length ≤ 2) (hbox : X.length = 2 → minOf X ≤ q ∧ q ≤ maxOf X) :
    0 ≤ axisT (sortAsc X) q ∧ axisT (sortAsc X) q ≤ 1 := by
  cases X with
  | nil => exact absurd rfl hne
  | cons x xs =>
    cases xs with
    | nil =>
      rw [sortAsc_singleton, axisT, if_pos (by simp)]
      norm_num
    | cons y ys =>
      cases ys with
      | cons z zs => simp at hlen
      | nil =>
        have hxy : x ≠ y := by
          have h := List.nodup_cons.1 hnd
          intro hc
          exact h.1 (by rw [hc]; exact List.mem_cons_self _ _)
        have hbox' := hbox rfl
        rw [minOf_pair, maxOf_pair] at hbox'
        by_cases hle : x ≤ y
        · have hlt : x < y := lt_of_le_of_ne hle hxy
          rw [sortAsc_pair_le hle, axisT_pair x y q hle]
          rw [min_eq_left hle, max_eq_right hle] at hbox'
          constructor
          · exact div_nonneg (by linarith [hbox'.1]) (by linarith)
          · rw [div_le_one (by linarith)]
            linarith [hbox'.2]
        · have hylt : y < x := lt_of_not_le hle
          rw [sortAsc_pair_gt hle, axisT_pair y x q hylt.le]
          rw [min_eq_right hylt.le, max_eq_left hylt.le] at hbox'
          constructor
          · exact div_nonneg (by linarith [hbox'.1]) (by linarith)
          · rw [div_le_one (by linarith)]
            linarith [hbox'.2]

theorem axisFactor_nonneg {vals : List ℚ} {t : ℚ} (h0 : 0 ≤ t) (h1 : t ≤ 1)
    (v : ℚ) : 0 ≤ axisFactor vals t v := by
  rw [axisFactor]
  split
  · rw [qsub_eq_sub]
    linarith
  · split
    · exact h0
    · exact zero_le_one

theorem axisFactor_sum (X : List ℚ) (q : ℚ) (hnd : X.Nodup) (hne : X ≠ [])
    (hlen : X.length ≤ 2) :
    (X.map (fun v => axisFactor (sortAsc X) (axisT (sortAsc X) q) v)).sum = 1 := by
  cases X with
  | nil => exact absurd rfl hne
  | cons x xs =>
    cases xs with
    | nil =>
      rw [List.map_cons, List.map_nil, List.sum_cons, List.sum_nil,
        sortAsc_singleton, axisT, if_pos (by simp), axisFactor,
        if_pos (pyIndex_head x []), qsub_eq_sub]
      norm_num
    | cons y ys =>
      cases ys with
      | cons z zs => simp at hlen
      | nil =>
        have hxy : x ≠ y := by
          have h := List.nodup_cons.1 hnd
          intro hc
          exact h.1 (by rw [hc]; exact List.mem_cons_self _ _)
        rw [List.map_cons, List.map_cons, List.map_nil, List.sum_cons,
          List.sum_cons, List.sum_nil]
        by_cases hle : x ≤ y
        · rw [sortAsc_pair_le hle, axisFactor_pair_fst,
            axisFactor_pair_snd _ hxy, qsub_eq_sub]
          ring
        · rw [sortAsc_pair_gt hle, axisFactor_pair_snd _ (Ne.symm hxy)]
          rw [show axisFactor [y, x] (axisT [y, x] q) y = qsub 1 (axisT [y, x] q)
            from axisFactor_pair_fst y x _, qsub_eq_sub]
          ring

theorem compute_weights_productGrid_sum (T G F A : List ℚ)
    (fn : ℚ → ℚ → ℚ → ℚ → String) (teff logg feh alpha : ℚ)
    (hT : T ≠ []) (hG : G ≠ []) (hF : F ≠ []) (hA : A ≠ [])
    (hTnd : T.Nodup) (hGnd : G.Nodup) (hFnd : F.Nodup) (hAnd : A.Nodup)
    (hTlen : T.length ≤ 2) (hGlen : G.length ≤ 2)
    (hFlen : F.length ≤ 2) (hAlen : A.length ≤ 2)
    (hTbox : T.length = 2 → minOf T ≤ teff ∧ teff ≤ maxOf T)
    (hGbox : G.length = 2 → minOf G ≤ logg ∧ logg ≤ maxOf G)
    (hFbox : F.length = 2 → minOf F ≤ feh ∧ feh ≤ maxOf F)
    (hAbox : A.length = 2 → minOf A ≤ alpha ∧ alpha ≤ maxOf A) :
    ((compute_weights (productGrid T G F A fn) teff logg feh alpha).map
      (fun wr => wr.weight)).sum = 1 := by
  have hTt := axisT_bounds T teff hTnd hT hTlen hTbox
  have hGt := axisT_bounds G logg hGnd hG hGlen hGbox
  have hFt := axisT_bounds F feh hFnd hF hFlen hFbox
  have hAt := axisT_bounds A alpha hAnd hA hAlen hAbox
  simp only [compute_weights]
  rw [uniqueFirst_map_teff T G F A fn hTnd hG hF hA,
    uniqueFirst_map_logg T G F A fn hT hGnd hF hA,
    uniqueFirst_map_feh T G F A fn hT hG hFnd hA,
    uniqueFirst_map_alpha T G F A fn hT hG hF hAnd,
    List.filter_map, List.map_map]
  show (((productGrid T G F A fn).filter (fun r => decide (0 <
      recordWeight (sortAsc T) (sortAsc G) (sortAsc F) (sortAsc A)
        teff logg feh alpha r))).map
      (fun r => recordWeight (sortAsc T) (sortAsc G) (sortAsc F) (sortAsc A)
        teff logg feh alpha r)).sum = 1
  have hnn : ∀ r ∈ productGrid T G F A fn,
      0 ≤ recordWeight (sortAsc T) (sortAsc G) (sortAsc F) (sortAsc A)
        teff logg feh alpha r := by
    intro r _
    rw [recordWeight, qmul_eq_mul, qmul_eq_mul, qmul_eq_mul]
    exact mul_nonneg (mul_nonneg (mul_nonneg
      (axisFactor_nonneg hTt.1 hTt.2 _) (axisFactor_nonneg hGt.1 hGt.2 _))
      (axisFactor_nonneg hFt.1 hFt.2 _)) (axisFactor_nonneg hAt.1 hAt.2 _)
  rw [sum_filter_pos_map _ _ hnn]
  rw [show recordWeight (sortAsc T) (sortAsc G) (sortAsc F)
      (sortAsc A) teff logg feh alpha =
      (fun r => (fun v => axisFactor (sortAsc T) (axisT (sortAsc T) teff) v) r.teff *
        (fun v => axisFactor (sortAsc G) (axisT (sortAsc G) logg) v) r.logg *
        (fun v => axisFactor (sortAsc F) (axisT (sortAsc F) feh) v) r.feh *
        (fun v => axisFactor (sortAsc A) (axisT (sortAsc A) alpha) v) r.alpha) from by
    funext r
    rw [recordWeight, qmul_eq_mul, qmul_eq_mul, qmul_eq_mul]]
  rw [sum_map_productGrid]
  rw [axisFactor_sum T teff hTnd hT hTlen, axisFactor_sum G logg hGnd hG hGlen,
    axisFactor_sum F feh hFnd hF hFlen, axisFactor_sum A alpha hAnd hA hAlen]
  norm_num

set_option maxRecDepth 8000 in
/-- Claim C1 is false as stated (counterexample).  Scenario 1: the diagonal
grid `{(0,0,0,0), (2,2,2,2)}` with centre query `(1,1,1,1)` — the candidate
set has 2 distinct values on every axis and the query is inside the grid's
bounding box on every axis, yet the weights sum to `1/8`, not `1` (the
candidate set is not a full Cartesian product).  Scenario 2: the full
product grid with teff values `{0,1,10}` and query teff `5` — inside the
grid's bounding box — selects the non-bracketing pair `{0,1}`, the negative
weights are dropped, and the surviving weights sum to `5`. -/
theorem claim_C1_counterexample :
    ((uniqueFirst (diagCand.map (fun r => r.teff))).length = 2 ∧
      (uniqueFirst (diagCand.map (fun r => r.logg))).length = 2 ∧
      (uniqueFirst (diagCand.map (fun r => r.feh))).length = 2 ∧
      (uniqueFirst (diagCand.map (fun r => r.alpha))).length = 2 ∧
      minOf (diagGrid.map (fun r => r.teff)) ≤ 1 ∧
      (1 : ℚ) ≤ maxOf (diagGrid.map (fun r => r.teff)) ∧
      minOf (diagGrid.map (fun r => r.logg)) ≤ 1 ∧
      (1 : ℚ) ≤ maxOf (diagGrid.map (fun r => r.logg)) ∧
      minOf (diagGrid.map (fun r => r.feh)) ≤ 1 ∧
      (1 : ℚ) ≤ maxOf (diagGrid.map (fun r => r.feh)) ∧
      minOf (diagGrid.map (fun r => r.alpha)) ≤ 1 ∧
      (1 : ℚ) ≤ maxOf (diagGrid.map (fun r => r.alpha)) ∧
      qsum ((compute_weights diagCand 1 1 1 1).map (fun wr => wr.weight)) ≠ 1) ∧
    ((uniqueFirst (skewCand.map (fun r => r.teff))).length = 2 ∧
      (uniqueFirst (skewCand.map (fun r => r.logg))).length = 2 ∧
      (uniqueFirst (skewCand.map (fun r => r.feh))).length = 2 ∧
      (uniqueFirst (skewCand.map (fun r => r.alpha))).length = 2 ∧
      minOf (skewGrid.map (fun r => r.teff)) ≤ 5 ∧
      (5 : ℚ) ≤ maxOf (skewGrid.map (fun r => r.teff)) ∧
      minOf (skewGrid.map (fun r => r.logg)) ≤ 1 ∧
      (1 : ℚ) ≤ maxOf (skewGrid.map (fun r => r.logg)) ∧
      minOf (skewGrid.map (fun r => r.feh)) ≤ 1 ∧
      (1 : ℚ) ≤ maxOf (skewGrid.map (fun r => r.feh)) ∧
      minOf (skewGrid.map (fun r => r.alpha)) ≤ 1 ∧
      (1 : ℚ) ≤ maxOf (skewGrid.map (fun r => r.alpha)) ∧
      qsum ((compute_weights skewCand 5 1 1 1).map (fun wr => wr.weight)) ≠ 1) := by
  decide

/-- Claim C1 (amended): on a grid that enumerates a full Cartesian product
of duplicate-free axis-value lists, when the candidate set produced by
`find_nearest_points` has 2 distinct values on each of the four axes and
the query lies within the *candidate set's* bounding box on each axis, the
weights of the list returned by `compute_weights` sum exactly to `1`. -/
theorem claim_C1 (T G F A : List ℚ) (fn : ℚ → ℚ → ℚ → ℚ → String)
    (teff logg feh alpha : ℚ)
    (hT : T ≠ []) (hG : G ≠ []) (hF : F ≠ []) (hA : A ≠ [])
    (hTnd : T.Nodup) (hGnd : G.Nodup) (hFnd : F.Nodup) (hAnd : A.Nodup)
    (hT2 : (T.filter (fun v => decide (v ∈ selectClosest T teff))).length = 2)
    (hG2 : (G.filter (fun v => decide (v ∈ selectClosest G logg))).length = 2)
    (hF2 : (F.filter (fun v => decide (v ∈ selectClosest F feh))).length = 2)
    (hA2 : (A.filter (fun v => decide (v ∈ selectClosest A alpha))).length = 2)
    (hTbox : minOf (T.filter (fun v => decide (v ∈ selectClosest T teff))) ≤ teff ∧
      teff ≤ maxOf (T.filter (fun v => decide (v ∈ selectClosest T teff))))
    (hGbox : minOf (G.filter (fun v => decide (v ∈ selectClosest G logg))) ≤ logg ∧
      logg ≤ maxOf (G.filter (fun v => decide (v ∈ selectClosest G logg))))
    (hFbox : minOf (F.filter (fun v => decide (v ∈ selectClosest F feh))) ≤ feh ∧
      feh ≤ maxOf (F.filter (fun v => decide (v ∈ selectClosest F feh))))
    (hAbox : minOf (A.filter (fun v => decide (v ∈ selectClosest A alpha))) ≤ alpha ∧
      alpha ≤ maxOf (A.filter (fun v => decide (v ∈ selectClosest A alpha)))) :
    qsum ((compute_weights
      (find_nearest_points (productGrid T G F A fn) teff logg feh alpha)
      teff logg feh alpha).map (fun wr => wr.weight)) = 1 := by
  have hok : (GridLists.mk T G F A).ok :=
    ⟨hT, hG, hF, hA, hTnd, hGnd, hFnd, hAnd⟩
  have h := findNearestPointsOrder_productGrid (queryOf teff logg feh alpha) fn
    canonicalAxisOrder (GridLists.mk T G F A) hok
  have hfnp : find_nearest_points (productGrid T G F A fn) teff logg feh alpha =
      productGrid (T.filter (fun v => decide (v ∈ selectClosest T teff)))
        (G.filter (fun v => decide (v ∈ selectClosest G logg)))
        (F.filter (fun v => decide (v ∈ selectClosest F feh)))
        (A.filter (fun v => decide (v ∈ selectClosest A alpha))) fn := h.1
  rw [qsum_eq_sum, hfnp]
  refine compute_weights_productGrid_sum _ _ _ _ fn teff logg feh alpha
    ?_ ?_ ?_ ?_ (hTnd.filter _) (hGnd.filter _) (hFnd.filter _) (hAnd.filter _)
    (le_of_eq hT2) (le_of_eq hG2) (le_of_eq hF2) (le_of_eq hA2)
    (fun _ => hTbox) (fun _ => hGbox) (fun _ => hFbox) (fun _ => hAbox)
  · intro hc
    rw [hc] at hT2
    simp at hT2
  · intro hc
    rw [hc] at hG2
    simp at hG2
  · intro hc
    rw [hc] at hF2
    simp at hF2
  · intro hc
    rw [hc] at hA2
    simp at hA2

/-- Witness for the amended C1: the full 2×2×2×2 grid on `{0,2}` per axis
with centre query, where all sixteen weights are `1/16`. -/
theorem claim_C1_witness :
    qsum ((compute_weights
      (find_nearest_points
        (productGrid [0, 2] [0, 2] [0, 2] [0, 2] (fun _ _ _ _ => "f")) 1 1 1 1)
      1 1 1 1).map (fun wr => wr.weight)) = 1 :=
  claim_C1 [0, 2] [0, 2] [0, 2] [0, 2] (fun _ _ _ _ => "f") 1 1 1 1
    (by decide) (by decide) (by decide) (by decide)
    (by decide) (by decide) (by decide) (by decide)
    (by decide) (by decide) (by decide) (by decide)
    (by decide) (by decide) (by decide) (by decide)

example :
    (compute_weights [⟨5000, 4, 0, 0, "a"⟩, ⟨6000, 4, 0, 0, "b"⟩] 5500 4 0 0).map
      (·.weight) = [mkRat 1 2, mkRat 1 2] := by decide

example :
    find_nearest_points
      [⟨5000, 4, 0, 0, "a"⟩, ⟨6000, 4, 0, 0, "b"⟩] 5000 4 0 0 =
      [⟨5000, 4, 0, 0, "a"⟩] := by decide
